import Mathlib

/-!
The go-nnet repository: the in-memory expiring key/value store of package
`cache`, and the neuron of package `go_nnet`.

A shallow embedding of `src/cache/local.go` (type `MemoryMap` and its methods)
together with the parts of the Go standard library the methods call
(`strings.HasPrefix`, `strconv.Atoi`, `strconv.ParseInt`, `strconv.ParseUint`,
`strconv.Itoa`, `strconv.FormatInt`, `time.Duration` arithmetic), and of
`Neuron` with `Initialize`, `InitializeWeights` and `Process` of
`src/go-nnet/main.go`.

Conventions
* A Go `string` is a finite sequence of bytes: `GoString := List UInt8`.
* Go `int` is taken to be 64 bits wide (`strconv.IntSize = 64`); `int`, `int64`
  and `time.Duration` values are mathematical integers in `[-2^63, 2^63)`, and
  every arithmetic operation of the source that can leave that range is
  followed by an explicit `wrap64`.
* A Go `(value, error)` result is a pair whose second component is
  `Option` of the error (`none` is `nil`); a run-time panic is `none`.
* The store is modelled sequentially: the state is the `cached` map plus the
  list of expiration goroutines that have been started and have not run yet.
  What each method does with the mutex is recorded separately, as its sequence
  of guard operations and container accesses.
* `json.Marshal` and `json.Unmarshal` are parameters of `SetMarshal` and
  `GetMarshal`; for values of type `string` they are embedded as
  `json.MarshalString` and `json.UnmarshalString`. `float64` is an abstract
  type in the neuron code, and the limits of `make` are a parameter.
-/

namespace GoNnet

/-- A Go string: a sequence of bytes. -/
abbrev GoString := List UInt8

/-- The bytes of an ASCII literal (every character below 128 is one byte). -/
def ascii (s : String) : GoString := s.toList.map (fun c => UInt8.ofNat c.toNat)

/-- Two's-complement wrap of a mathematical integer into the int64 range. -/
def wrap64 (x : Int) : Int := (x + 2 ^ 63) % 2 ^ 64 - 2 ^ 63

/-- The int64 range. -/
def inInt64 (x : Int) : Prop := -(2 ^ 63) ≤ x ∧ x < 2 ^ 63

instance (x : Int) : Decidable (inInt64 x) := by unfold inInt64; infer_instance

/-! ## strings -/

namespace strings

/-- Go `strings.HasPrefix(s, pre)`: `len(s) >= len(pre) && s[:len(pre)] == pre`. -/
def HasPrefix (s pre : GoString) : Bool :=
  decide (s.length ≥ pre.length) && (s.take pre.length == pre)

end strings

/-! ## strconv -/

namespace strconv

/-- The two error causes of `strconv.NumError`: `ErrSyntax` and `ErrRange`. -/
inductive NumError where
  | ErrSyntax
  | ErrRange
  deriving DecidableEq, Repr

/-- The constant `maxUint64 = 1<<64 - 1`. -/
def maxUint64 : Nat := 2 ^ 64 - 1

/-- Go `lower(c) = c | ('x' - 'X')`. -/
def lower (c : Nat) : Nat := c ||| 32

/-- The body of the `for _, c := range []byte(s)` loop of `strconv.ParseUint`
specialised to `base = 10`, `bitSize = 64` (so `base0 = false`,
`cutoff = maxUint64/10 + 1`, `maxVal = maxUint64`); `n` is the accumulator. -/
def parseUintLoop : Nat → GoString → Nat × Option NumError
  | n, [] => (n, none)
  | n, c :: cs =>
    let c := c.toNat
    -- case '0' <= c && c <= '9': d = c - '0'
    -- case 'a' <= lower(c) && lower(c) <= 'z': d = lower(c) - 'a' + 10
    -- default: return 0, syntaxError
    let d : Option Nat :=
      if 48 ≤ c ∧ c ≤ 57 then some (c - 48)
      else if 97 ≤ lower c ∧ lower c ≤ 122 then some ((lower c - 97 + 10) % 256)
      else none
    match d with
    | none => (0, some NumError.ErrSyntax)
    | some d =>
      if d ≥ 10 then (0, some NumError.ErrSyntax)
      else if n ≥ maxUint64 / 10 + 1 then (maxUint64, some NumError.ErrRange)
      else
        let n := (n * 10) % 2 ^ 64
        let n1 := (n + d) % 2 ^ 64
        if n1 < n ∨ n1 > maxUint64 then (maxUint64, some NumError.ErrRange)
        else parseUintLoop n1 cs

/-- Go `strconv.ParseUint(s, 10, 64)`. -/
def ParseUint (s : GoString) : Nat × Option NumError :=
  if s = [] then (0, some NumError.ErrSyntax) else parseUintLoop 0 s

/-- Go `strconv.ParseInt(s, 10, 64)` (also `ParseInt(s, 10, 0)` when
`IntSize = 64`). -/
def ParseInt (s : GoString) : Int × Option NumError :=
  match s with
  | [] => (0, some NumError.ErrSyntax)
  | c :: rest =>
    -- pick off leading sign
    let neg : Bool := c = 45
    let body : GoString := if c = 43 ∨ c = 45 then rest else s
    match ParseUint body with
    | (_, some NumError.ErrSyntax) => (0, some NumError.ErrSyntax)
    | (un, _) =>
      let cutoff : Nat := 2 ^ 63
      if !neg ∧ un ≥ cutoff then ((cutoff : Int) - 1, some NumError.ErrRange)
      else if neg ∧ un > cutoff then (-(cutoff : Int), some NumError.ErrRange)
      else
        let n : Int := wrap64 (un : Int)
        (if neg then wrap64 (-n) else n, none)

/-- The fast-path loop of `strconv.Atoi`: `ch -= '0'` on a byte, a syntax error
when `ch > 9`, otherwise `n = n*10 + int(ch)` in `int`. -/
def atoiLoop : Int → GoString → Option Int
  | n, [] => some n
  | n, c :: cs =>
    let ch : Nat := (c.toNat + 256 - 48) % 256
    if ch > 9 then none else atoiLoop (wrap64 (n * 10 + (ch : Int))) cs

/-- Go `strconv.Atoi(s)` with `intSize = 64`: the fast path for
`0 < len(s) < 19`, `ParseInt(s, 10, 0)` otherwise. -/
def Atoi (s : GoString) : Int × Option NumError :=
  if 0 < s.length ∧ s.length < 19 then
    match s with
    | [] => (0, some NumError.ErrSyntax)
    | c :: rest =>
      let signed : Bool := c = 45 ∨ c = 43
      let body : GoString := if signed then rest else s
      if signed ∧ body.length < 1 then (0, some NumError.ErrSyntax)
      else
        match atoiLoop 0 body with
        | none => (0, some NumError.ErrSyntax)
        | some n => (if c = 45 then wrap64 (-n) else n, none)
  else
    ParseInt s

/-- The digit loop of `strconv.formatBits` for base 10, writing the decimal
digits of `u` in front of `acc`; `fuel` is the size of the output buffer. -/
def formatBitsLoop : Nat → Nat → GoString → GoString
  | 0, _, acc => acc
  | fuel + 1, u, acc =>
    if u ≥ 10 then formatBitsLoop fuel (u / 10) (UInt8.ofNat (48 + u % 10) :: acc)
    else UInt8.ofNat (48 + u) :: acc

/-- Go `strconv.FormatInt(i, 10)` for an int64 `i`: a minus sign for a
negative `i`, then the decimal digits of its magnitude as a uint64
(`formatBits` uses a buffer of 65 bytes). -/
def FormatInt (i : Int) : GoString :=
  if i < 0 then 45 :: formatBitsLoop 64 ((-i).toNat % 2 ^ 64) []
  else formatBitsLoop 65 (i.toNat % 2 ^ 64) []

/-- Go `strconv.Itoa(i) = FormatInt(int64(i), 10)`. -/
def Itoa (i : Int) : GoString := FormatInt i

/-! ### What a decimal numeral denotes (the reading of the spec) -/

/-- An ASCII decimal digit. -/
def isDigit (c : UInt8) : Prop := 48 ≤ c.toNat ∧ c.toNat ≤ 57

instance (c : UInt8) : Decidable (isDigit c) := by unfold isDigit; infer_instance

/-- Reading one more decimal digit. -/
def digitStep (n : Nat) (c : UInt8) : Nat := n * 10 + (c.toNat - 48)

/-- The value of a non-empty string of decimal digits, as the spec reads it. -/
def digitsValue (ds : GoString) : Option Nat :=
  if ds ≠ [] ∧ ∀ c ∈ ds, isDigit c then some (ds.foldl digitStep 0) else none

/-- The integer a string denotes in base 10, as the spec reads it: an optional
sign, then one or more decimal digits; no bound on the magnitude. -/
def decimalValue (s : GoString) : Option Int :=
  match s with
  | [] => none
  | c :: rest =>
    if c = 45 then (digitsValue rest).map (fun (u : Nat) => -(u : Int))
    else if c = 43 then (digitsValue rest).map (fun (u : Nat) => (u : Int))
    else (digitsValue (c :: rest)).map (fun (u : Nat) => (u : Int))

/-- The canonical decimal numeral of an integer, as the spec reads it: a minus
sign for a negative number, then the decimal digits of the magnitude with no
leading zero (`Nat.toDigits 10`), each as its ASCII byte. -/
def canonicalDecimal (n : Int) : GoString :=
  (if n < 0 then [45] else []) ++
    (Nat.toDigits 10 n.natAbs).map (fun ch => UInt8.ofNat ch.toNat)

end strconv

/-! ## time -/

namespace time

/-- The constant `time.Second`, in nanoseconds. -/
def Second : Int := 1000000000

/-- The expression `time.Duration(seconds) * time.Second`: an int64
multiplication, which wraps around on overflow. -/
def secondsDuration (seconds : Int) : Int := wrap64 (seconds * Second)

end time

/-! ## unicode/utf8 and unicode/utf16 -/

namespace utf8

/-- The constant `utf8.RuneError`, U+FFFD. -/
def RuneError : Int := 0xFFFD

/-- Go `utf8.DecodeRune` and `utf8.DecodeRuneInString`: the first rune of `s`
and its width in bytes; `(RuneError, 0)` for the empty string and
`(RuneError, 1)` for an invalid or a cut-off encoding. The table `first` and
the `acceptRanges` are written out as comparisons on the first byte. -/
def DecodeRune (s : GoString) : Int × Nat :=
  match s with
  | [] => (RuneError, 0)
  | c0 :: rest =>
    let s0 := c0.toNat
    -- `x >= as`: an ASCII byte, or a byte that starts no encoding
    if s0 < 0x80 then ((s0 : Int), 1)
    else if s0 < 0xC2 ∨ 0xF4 < s0 then (RuneError, 1)
    else
      -- `sz := int(x & 7)`, `accept := acceptRanges[x>>4]`
      let sz : Nat := if s0 < 0xE0 then 2 else if s0 < 0xF0 then 3 else 4
      let lo : Nat := if s0 = 0xE0 then 0xA0 else if s0 = 0xF0 then 0x90 else 0x80
      let hi : Nat := if s0 = 0xED then 0x9F else if s0 = 0xF4 then 0x8F else 0xBF
      if rest.length + 1 < sz then (RuneError, 1)
      else
        let s1 := (rest.getD 0 0).toNat
        let s2 := (rest.getD 1 0).toNat
        let s3 := (rest.getD 2 0).toNat
        if s1 < lo ∨ hi < s1 then (RuneError, 1)
        else if sz ≤ 2 then ((((s0 % 32) * 64 + s1 % 64 : Nat) : Int), 2)
        else if s2 < 0x80 ∨ 0xBF < s2 then (RuneError, 1)
        else if sz ≤ 3 then
          ((((s0 % 16) * 4096 + (s1 % 64) * 64 + s2 % 64 : Nat) : Int), 3)
        else if s3 < 0x80 ∨ 0xBF < s3 then (RuneError, 1)
        else
          ((((s0 % 8) * 262144 + (s1 % 64) * 4096 + (s2 % 64) * 64 + s3 % 64 : Nat) : Int), 4)

/-- Go `utf8.EncodeRune`: the UTF-8 encoding of the rune; a rune above
U+10FFFF, a surrogate and a negative rune are encoded as `RuneError`. -/
def EncodeRune (r : Int) : GoString :=
  -- `i := uint32(r)`
  let i : Nat := (r % 2 ^ 32).toNat
  if i ≤ 0x7F then [UInt8.ofNat i]
  else if i ≤ 0x7FF then [UInt8.ofNat (0xC0 + i / 64), UInt8.ofNat (0x80 + i % 64)]
  else
    let j : Nat := if i > 0x10FFFF ∨ (0xD800 ≤ i ∧ i ≤ 0xDFFF) then 0xFFFD else i
    if j ≤ 0xFFFF then
      [UInt8.ofNat (0xE0 + j / 4096), UInt8.ofNat (0x80 + j / 64 % 64),
       UInt8.ofNat (0x80 + j % 64)]
    else
      [UInt8.ofNat (0xF0 + j / 262144), UInt8.ofNat (0x80 + j / 4096 % 64),
       UInt8.ofNat (0x80 + j / 64 % 64), UInt8.ofNat (0x80 + j % 64)]

end utf8

namespace utf16

/-- Go `utf16.IsSurrogate`. -/
def IsSurrogate (r : Int) : Bool := decide (0xd800 ≤ r ∧ r < 0xe000)

/-- Go `utf16.DecodeRune`: the rune of a surrogate pair, U+FFFD when the two
are not a valid pair. -/
def DecodeRune (r1 r2 : Int) : Int :=
  if 0xd800 ≤ r1 ∧ r1 < 0xdc00 ∧ 0xdc00 ≤ r2 ∧ r2 < 0xe000 then
    (r1 - 0xd800) * 1024 + (r2 - 0xdc00) + 0x10000
  else 0xFFFD

end utf16

/-! ## encoding/json, for values of type `string`

`json.Marshal(v)` for a `v` of type `string` and `json.Unmarshal(data, &y)`
for a `y` of type `string`: the string encoder `appendString`, the scanner
behind `checkValid`, and the part of the decoder that stores a literal into a
string. Bytes are written by their code: `"` is 34, `\` is 92. -/

namespace json

/-- The table `hex = "0123456789abcdef"`. -/
def hex (n : Nat) : UInt8 := UInt8.ofNat (if n < 10 then 48 + n else 87 + n)

/-- The table `htmlSafeSet`: the ASCII bytes from the space on, without
`"`, `&`, `<`, `>` and `\`. -/
def htmlSafeSet (b : Nat) : Bool :=
  decide (0x20 ≤ b ∧ b < 0x80 ∧ b ≠ 34 ∧ b ≠ 38 ∧ b ≠ 60 ∧ b ≠ 62 ∧ b ≠ 92)

/-- The loop of `appendString` with `escapeHTML = true`, giving what is
written for the rest of `src`; `fuel` bounds the number of iterations. The
short escapes are those of Go 1.22 and later, which writes `\b` and `\f`
where earlier versions wrote `\u0008` and `\u000c`. -/
def appendStringLoop : Nat → GoString → GoString
  | 0, _ => []
  | _ + 1, [] => []
  | fuel + 1, c :: rest =>
    let b := c.toNat
    if b < 0x80 then
      if htmlSafeSet b then c :: appendStringLoop fuel rest
      else
        (if b = 92 ∨ b = 34 then [92, c]
         else if b = 8 then [92, 98]
         else if b = 12 then [92, 102]
         else if b = 10 then [92, 110]
         else if b = 13 then [92, 114]
         else if b = 9 then [92, 116]
         else [92, 117, 48, 48, hex (b / 16), hex (b % 16)])
        ++ appendStringLoop fuel rest
    else
      let d := utf8.DecodeRune ((c :: rest).take 4)
      if d.1 = utf8.RuneError ∧ d.2 = 1 then
        -- the six bytes `\ufffd`
        [92, 117, 102, 102, 102, 100] ++ appendStringLoop fuel rest
      else if d.1 = 0x2028 ∨ d.1 = 0x2029 then
        [92, 117, 50, 48, 50, hex (d.1 % 16).toNat]
        ++ appendStringLoop fuel ((c :: rest).drop d.2)
      else (c :: rest).take d.2 ++ appendStringLoop fuel ((c :: rest).drop d.2)

/-- Go `appendString(dst, src, true)` on an empty `dst`. -/
def appendString (src : GoString) : GoString :=
  34 :: (appendStringLoop src.length src ++ [34])

/-- Go `json.Marshal(v)` for a `v` of type `string`: the quoted string; it
returns no error. -/
def MarshalString (v : GoString) : GoString := appendString v

/-- The entries of the scanner's `parseState` stack. -/
inductive ParseState where
  | parseObjectKey
  | parseObjectValue
  | parseArrayValue
  deriving DecidableEq, Repr

/-- The value of the scanner's field `step`: one of the state functions
`stateBeginValueOrEmpty`, ..., `stateError`. -/
inductive StepFn where
  | BeginValueOrEmpty | BeginValue | BeginStringOrEmpty | BeginString
  | EndValue | EndTop
  | InString | InStringEsc | InStringEscU | InStringEscU1 | InStringEscU12
  | InStringEscU123
  | Neg | S1 | S0 | Dot | Dot0 | E | ESign | E0
  | T | Tr | Tru | F | Fa | Fal | Fals | N | Nu | Nul
  | Error
  deriving DecidableEq, Repr

/-- The struct `scanner`: `step`, `endTop`, the `parseState` stack with its
top first, and whether `err` is set. -/
structure scanner where
  step : StepFn
  endTop : Bool
  parseState : List ParseState
  err : Bool
  deriving DecidableEq, Repr

/-- The constant `maxNestingDepth`. -/
def maxNestingDepth : Nat := 10000

/-- Go `isSpace`. -/
def isSpace (c : Nat) : Bool := decide (c ≤ 32 ∧ (c = 32 ∨ c = 9 ∨ c = 13 ∨ c = 10))

/-- Go `(*scanner).reset`. -/
def scanner.reset : scanner :=
  { step := StepFn.BeginValue, endTop := false, parseState := [], err := false }

/-- Go `(*scanner).error`: the scanner enters `stateError` with `err` set; the
second component says that `scanError` is returned. -/
def scanner.error (s : scanner) : scanner × Bool :=
  ({ s with step := StepFn.Error, err := true }, true)

/-- Go `(*scanner).pushParseState`. -/
def scanner.pushParseState (s : scanner) (newParseState : ParseState) : scanner × Bool :=
  let s1 := { s with parseState := newParseState :: s.parseState }
  if s1.parseState.length ≤ maxNestingDepth then (s1, false) else s1.error

/-- Go `(*scanner).popParseState`. -/
def scanner.popParseState (s : scanner) : scanner :=
  let rest := s.parseState.tail
  if rest.length = 0 then { s with parseState := rest, step := StepFn.EndTop, endTop := true }
  else { s with parseState := rest, step := StepFn.EndValue }

/-- Go `stateEndTop`: a byte that is not a space records the error, and
`scanEnd` is returned all the same. -/
def stateEndTop (s : scanner) (c : Nat) : scanner × Bool :=
  if isSpace c then (s, false) else (s.error.1, false)

/-- Go `stateEndValue`. -/
def stateEndValue (s : scanner) (c : Nat) : scanner × Bool :=
  match s.parseState with
  | [] => stateEndTop { s with step := StepFn.EndTop, endTop := true } c
  | ps :: rest =>
    if isSpace c then ({ s with step := StepFn.EndValue }, false)
    else
      match ps with
      | ParseState.parseObjectKey =>
        if c = 58 then
          ({ s with parseState := ParseState.parseObjectValue :: rest,
                    step := StepFn.BeginValue }, false)
        else s.error
      | ParseState.parseObjectValue =>
        if c = 44 then
          ({ s with parseState := ParseState.parseObjectKey :: rest,
                    step := StepFn.BeginString }, false)
        else if c = 125 then (s.popParseState, false)
        else s.error
      | ParseState.parseArrayValue =>
        if c = 44 then ({ s with step := StepFn.BeginValue }, false)
        else if c = 93 then (s.popParseState, false)
        else s.error

/-- Go `stateBeginValue`. -/
def stateBeginValue (s : scanner) (c : Nat) : scanner × Bool :=
  if isSpace c then (s, false)
  else if c = 123 then
    scanner.pushParseState { s with step := StepFn.BeginStringOrEmpty }
      ParseState.parseObjectKey
  else if c = 91 then
    scanner.pushParseState { s with step := StepFn.BeginValueOrEmpty }
      ParseState.parseArrayValue
  else if c = 34 then ({ s with step := StepFn.InString }, false)
  else if c = 45 then ({ s with step := StepFn.Neg }, false)
  else if c = 48 then ({ s with step := StepFn.S0 }, false)
  else if c = 116 then ({ s with step := StepFn.T }, false)
  else if c = 102 then ({ s with step := StepFn.F }, false)
  else if c = 110 then ({ s with step := StepFn.N }, false)
  else if 49 ≤ c ∧ c ≤ 57 then ({ s with step := StepFn.S1 }, false)
  else s.error

/-- Go `stateBeginValueOrEmpty`. -/
def stateBeginValueOrEmpty (s : scanner) (c : Nat) : scanner × Bool :=
  if isSpace c then (s, false)
  else if c = 93 then stateEndValue s c
  else stateBeginValue s c

/-- Go `stateBeginString`. -/
def stateBeginString (s : scanner) (c : Nat) : scanner × Bool :=
  if isSpace c then (s, false)
  else if c = 34 then ({ s with step := StepFn.InString }, false)
  else s.error

/-- Go `stateBeginStringOrEmpty`; at `}` the top of the stack becomes
`parseObjectValue`. -/
def stateBeginStringOrEmpty (s : scanner) (c : Nat) : scanner × Bool :=
  if isSpace c then (s, false)
  else if c = 125 then
    stateEndValue { s with parseState := ParseState.parseObjectValue :: s.parseState.tail } c
  else stateBeginString s c

/-- Go `stateInString`. -/
def stateInString (s : scanner) (c : Nat) : scanner × Bool :=
  if c = 34 then ({ s with step := StepFn.EndValue }, false)
  else if c = 92 then ({ s with step := StepFn.InStringEsc }, false)
  else if c < 0x20 then s.error
  else (s, false)

/-- Go `stateInStringEsc`. -/
def stateInStringEsc (s : scanner) (c : Nat) : scanner × Bool :=
  if c = 98 ∨ c = 102 ∨ c = 110 ∨ c = 114 ∨ c = 116 ∨ c = 92 ∨ c = 47 ∨ c = 34 then
    ({ s with step := StepFn.InString }, false)
  else if c = 117 then ({ s with step := StepFn.InStringEscU }, false)
  else s.error

/-- The test of `stateInStringEscU` and its three followers: a hexadecimal
digit moves on to `next`. -/
def stateHex (next : StepFn) (s : scanner) (c : Nat) : scanner × Bool :=
  if (48 ≤ c ∧ c ≤ 57) ∨ (97 ≤ c ∧ c ≤ 102) ∨ (65 ≤ c ∧ c ≤ 70) then
    ({ s with step := next }, false)
  else s.error

/-- Go `stateNeg`. -/
def stateNeg (s : scanner) (c : Nat) : scanner × Bool :=
  if c = 48 then ({ s with step := StepFn.S0 }, false)
  else if 49 ≤ c ∧ c ≤ 57 then ({ s with step := StepFn.S1 }, false)
  else s.error

/-- Go `state0`. -/
def state0 (s : scanner) (c : Nat) : scanner × Bool :=
  if c = 46 then ({ s with step := StepFn.Dot }, false)
  else if c = 101 ∨ c = 69 then ({ s with step := StepFn.E }, false)
  else stateEndValue s c

/-- Go `state1`. -/
def state1 (s : scanner) (c : Nat) : scanner × Bool :=
  if 48 ≤ c ∧ c ≤ 57 then ({ s with step := StepFn.S1 }, false)
  else state0 s c

/-- Go `stateDot`. -/
def stateDot (s : scanner) (c : Nat) : scanner × Bool :=
  if 48 ≤ c ∧ c ≤ 57 then ({ s with step := StepFn.Dot0 }, false)
  else s.error

/-- Go `stateDot0`. -/
def stateDot0 (s : scanner) (c : Nat) : scanner × Bool :=
  if 48 ≤ c ∧ c ≤ 57 then (s, false)
  else if c = 101 ∨ c = 69 then ({ s with step := StepFn.E }, false)
  else stateEndValue s c

/-- Go `stateESign`. -/
def stateESign (s : scanner) (c : Nat) : scanner × Bool :=
  if 48 ≤ c ∧ c ≤ 57 then ({ s with step := StepFn.E0 }, false)
  else s.error

/-- Go `stateE`. -/
def stateE (s : scanner) (c : Nat) : scanner × Bool :=
  if c = 43 ∨ c = 45 then ({ s with step := StepFn.ESign }, false)
  else stateESign s c

/-- Go `stateE0`. -/
def stateE0 (s : scanner) (c : Nat) : scanner × Bool :=
  if 48 ≤ c ∧ c ≤ 57 then (s, false)
  else stateEndValue s c

/-- The state functions inside the literals `true`, `false` and `null`: the
expected byte moves on to `next`. -/
def stateLetter (expected : Nat) (next : StepFn) (s : scanner) (c : Nat) :
    scanner × Bool :=
  if c = expected then ({ s with step := next }, false) else s.error

/-- The call `s.step(s, c)`. -/
def scanner.doStep (s : scanner) (c : UInt8) : scanner × Bool :=
  let b := c.toNat
  match s.step with
  | StepFn.BeginValueOrEmpty => stateBeginValueOrEmpty s b
  | StepFn.BeginValue => stateBeginValue s b
  | StepFn.BeginStringOrEmpty => stateBeginStringOrEmpty s b
  | StepFn.BeginString => stateBeginString s b
  | StepFn.EndValue => stateEndValue s b
  | StepFn.EndTop => stateEndTop s b
  | StepFn.InString => stateInString s b
  | StepFn.InStringEsc => stateInStringEsc s b
  | StepFn.InStringEscU => stateHex StepFn.InStringEscU1 s b
  | StepFn.InStringEscU1 => stateHex StepFn.InStringEscU12 s b
  | StepFn.InStringEscU12 => stateHex StepFn.InStringEscU123 s b
  | StepFn.InStringEscU123 => stateHex StepFn.InString s b
  | StepFn.Neg => stateNeg s b
  | StepFn.S1 => state1 s b
  | StepFn.S0 => state0 s b
  | StepFn.Dot => stateDot s b
  | StepFn.Dot0 => stateDot0 s b
  | StepFn.E => stateE s b
  | StepFn.ESign => stateESign s b
  | StepFn.E0 => stateE0 s b
  | StepFn.T => stateLetter 114 StepFn.Tr s b
  | StepFn.Tr => stateLetter 117 StepFn.Tru s b
  | StepFn.Tru => stateLetter 101 StepFn.EndValue s b
  | StepFn.F => stateLetter 97 StepFn.Fa s b
  | StepFn.Fa => stateLetter 108 StepFn.Fal s b
  | StepFn.Fal => stateLetter 115 StepFn.Fals s b
  | StepFn.Fals => stateLetter 101 StepFn.EndValue s b
  | StepFn.N => stateLetter 117 StepFn.Nu s b
  | StepFn.Nu => stateLetter 108 StepFn.Nul s b
  | StepFn.Nul => stateLetter 108 StepFn.EndValue s b
  | StepFn.Error => (s, true)

/-- Go `(*scanner).eof`; `true` is `scanEnd`, `false` is `scanError`. -/
def scanner.eof (s : scanner) : Bool :=
  if s.err then false
  else if s.endTop then true
  else (s.doStep 32).1.endTop

/-- The loop of `checkValid`; `none` when a step returned `scanError`. -/
def checkValidLoop : scanner → GoString → Option scanner
  | s, [] => some s
  | s, c :: rest =>
    let r := s.doStep c
    if r.2 then none else checkValidLoop r.1 rest

/-- Go `checkValid`: whether `data` is one JSON value; `false` is the return
of a `*SyntaxError`. -/
def checkValid (data : GoString) : Bool :=
  match checkValidLoop scanner.reset data with
  | none => false
  | some s => s.eof

/-- Go `getu4`: the rune of the six bytes `\uXXXX` at the start of `s`, or
`-1`. -/
def getu4 (s : GoString) : Int :=
  if s.length < 6 ∨ s.getD 0 0 ≠ 92 ∨ s.getD 1 0 ≠ 117 then -1
  else
    ((s.drop 2).take 4).foldl
      (fun (r : Int) (c : UInt8) =>
        let b := c.toNat
        if r < 0 then -1
        else if 48 ≤ b ∧ b ≤ 57 then r * 16 + ((b - 48 : Nat) : Int)
        else if 97 ≤ b ∧ b ≤ 102 then r * 16 + ((b - 97 + 10 : Nat) : Int)
        else if 65 ≤ b ∧ b ≤ 70 then r * 16 + ((b - 65 + 10 : Nat) : Int)
        else -1)
      0

/-- The first loop of `unquoteBytes`: the number of leading bytes of `s` that
need no unquoting. -/
def unquotePlain : Nat → GoString → Nat
  | 0, _ => 0
  | _ + 1, [] => 0
  | fuel + 1, c :: rest =>
    let b := c.toNat
    if b = 92 ∨ b = 34 ∨ b < 32 then 0
    else if b < 0x80 then 1 + unquotePlain fuel rest
    else
      let d := utf8.DecodeRune (c :: rest)
      if d.1 = utf8.RuneError ∧ d.2 = 1 then 0
      else d.2 + unquotePlain fuel ((c :: rest).drop d.2)

/-- The second loop of `unquoteBytes`, giving what is written for the rest
of `s`; `none` is the return with `ok == false`. -/
def unquoteLoop : Nat → GoString → Option GoString
  | _, [] => some []
  | 0, _ :: _ => none
  | fuel + 1, c :: rest =>
    let b := c.toNat
    if b = 92 then
      match rest with
      | [] => none
      | e :: rest2 =>
        let x := e.toNat
        if x = 34 ∨ x = 92 ∨ x = 47 ∨ x = 39 then (unquoteLoop fuel rest2).map (e :: ·)
        else if x = 98 then (unquoteLoop fuel rest2).map (8 :: ·)
        else if x = 102 then (unquoteLoop fuel rest2).map (12 :: ·)
        else if x = 110 then (unquoteLoop fuel rest2).map (10 :: ·)
        else if x = 114 then (unquoteLoop fuel rest2).map (13 :: ·)
        else if x = 116 then (unquoteLoop fuel rest2).map (9 :: ·)
        else if x = 117 then
          let rr := getu4 (c :: rest)
          if rr < 0 then none
          else
            let after := (c :: rest).drop 6
            if utf16.IsSurrogate rr then
              let dec := utf16.DecodeRune rr (getu4 after)
              if dec ≠ 0xFFFD then
                (unquoteLoop fuel (after.drop 6)).map (utf8.EncodeRune dec ++ ·)
              else (unquoteLoop fuel after).map (utf8.EncodeRune 0xFFFD ++ ·)
            else (unquoteLoop fuel after).map (utf8.EncodeRune rr ++ ·)
        else none
    else if b = 34 ∨ b < 32 then none
    else if b < 0x80 then (unquoteLoop fuel rest).map (c :: ·)
    else
      let d := utf8.DecodeRune (c :: rest)
      (unquoteLoop fuel ((c :: rest).drop d.2)).map (utf8.EncodeRune d.1 ++ ·)

/-- Go `unquoteBytes`: the bytes a quoted JSON string literal stands for;
`none` is `ok == false`. -/
def unquoteBytes (s : GoString) : Option GoString :=
  if s.length < 2 ∨ s.head? ≠ some 34 ∨ s.getLast? ≠ some 34 then none
  else
    let body := (s.drop 1).dropLast
    let r := unquotePlain body.length body
    if r = body.length then some body
    else (unquoteLoop body.length (body.drop r)).map (body.take r ++ ·)

/-- The string case of `rescanLiteral`: the bytes after the opening quote up
to the closing quote, a byte after a backslash being skipped over. -/
def rescanString : GoString → GoString
  | [] => []
  | c :: rest =>
    if c = 34 then []
    else if c = 92 then
      match rest with
      | [] => [c]
      | e :: rest2 => c :: e :: rescanString rest2
    else c :: rescanString rest

/-- The errors of `json.Unmarshal` on a string target: a `*SyntaxError` (its
message and offset are not modelled) and an `*UnmarshalTypeError` with its
field `Value`. -/
inductive DecodeError where
  | SyntaxError
  | UnmarshalTypeError (value : GoString)
  deriving DecidableEq, Repr

/-- Go `json.Unmarshal(data, &y)` for a `y` of type `string`: what `y` holds
afterwards, and the error. After `checkValid` the first byte that is not a
space decides: an array, an object, a bool or a number cannot be stored in a
string, `null` leaves `y` as it is, and a string literal is unquoted into
`y`. A text that passed `checkValid` has such a byte, and its string literals
unquote, so the two branches that return a syntax error after `checkValid`
are never taken. -/
def UnmarshalString (data y : GoString) : GoString × Option DecodeError :=
  if checkValid data then
    match data.dropWhile (fun c => isSpace c.toNat) with
    | [] => (y, some DecodeError.SyntaxError)
    | c :: rest =>
      let b := c.toNat
      if b = 91 then (y, some (DecodeError.UnmarshalTypeError (ascii "array")))
      else if b = 123 then (y, some (DecodeError.UnmarshalTypeError (ascii "object")))
      else if b = 34 then
        match unquoteBytes (c :: (rescanString rest ++ [34])) with
        | some t => (t, none)
        | none => (y, some DecodeError.SyntaxError)
      else if b = 110 then (y, none)
      else if b = 116 ∨ b = 102 then
        (y, some (DecodeError.UnmarshalTypeError (ascii "bool")))
      else (y, some (DecodeError.UnmarshalTypeError (ascii "number")))
  else (y, some DecodeError.SyntaxError)

/-- The scanner inside a top-level string literal. -/
def inTopString : scanner :=
  { step := StepFn.InString, endTop := false, parseState := [], err := false }

end json

/-! ## cache -/

namespace cache

/-- A Go `map[string]string`: a finite list of key/value entries. Lookup takes
the first entry of a key and deletion drops every entry of it, so all
operations are meaningful on any list. -/
abbrev GoMap := List (GoString × GoString)

/-- The two-valued index expression `v, ok := m[key]`; `none` is `ok == false`. -/
def mapLookup (m : GoMap) (key : GoString) : Option GoString :=
  match m with
  | [] => none
  | (k, v) :: rest => if k = key then some v else mapLookup rest key

/-- The one-valued index expression `m[key]`: the zero value `""` when absent. -/
def mapIndex (m : GoMap) (key : GoString) : GoString :=
  (mapLookup m key).getD []

/-- The builtin `delete(m, key)`. -/
def mapDelete (m : GoMap) (key : GoString) : GoMap :=
  m.filter (fun e => decide (e.1 ≠ key))

/-- The assignment `m[key] = value`. -/
def mapAssign (m : GoMap) (key value : GoString) : GoMap :=
  (key, value) :: mapDelete m key

/-- The error values the methods return: `errors.New("data not found")`, the
`*strconv.NumError` of a failed integer parse, and the errors of
`encoding/json`: those of `Marshal`, told apart by their message, and those
of `Unmarshal`. -/
inductive GoError where
  | dataNotFound
  | numError (e : strconv.NumError)
  | jsonError (message : GoString)
  | jsonDecodeError (e : json.DecodeError)
  deriving DecidableEq, Repr

/-- One expiration goroutine started by `Set` or `SetIfNotExist`:
`go func() { <-time.After(delay); i.Remove(key) }()`, with `delay` the
duration in nanoseconds that was passed to `time.After`. -/
structure Expiry where
  key : GoString
  delay : Int
  deriving DecidableEq, Repr

/-- The channel of `time.After(d)` delivers once at least `d` has elapsed; for
`d <= 0` it delivers at once. -/
def Expiry.ready (e : Expiry) (elapsed : Int) : Bool := decide (e.delay ≤ elapsed)

/-- The store: the `cached` map of `MemoryMap` and the expiration goroutines
that were started on it and have not run their `Remove` yet (`spawned`, in
the order they were started). The mutex is not modelled: methods run one at
a time. -/
structure MemoryMap where
  cached : GoMap
  spawned : List Expiry
  deriving DecidableEq, Repr

/-- Go `InMemory()`: an empty map; nothing has been spawned. -/
def InMemory : MemoryMap := { cached := [], spawned := [] }

/-- Go `(*MemoryMap).Exist`. -/
def Exist (i : MemoryMap) (key : GoString) : Bool :=
  match mapLookup i.cached key with
  | some _ => true
  | none => false

/-- Go `(*MemoryMap).GetOrErr`. -/
def GetOrErr (i : MemoryMap) (key : GoString) : GoString × Option GoError :=
  match mapLookup i.cached key with
  | none => ([], some GoError.dataNotFound)
  | some v => (v, none)

/-- Go `(*MemoryMap).Get`. -/
def Get (i : MemoryMap) (key fallback : GoString) : GoString :=
  match GetOrErr i key with
  | (_, some _) => fallback
  | (v, none) => v

/-- Go `(*MemoryMap).Set`: the assignment, then one goroutine is started that
waits `time.Duration(seconds) * time.Second` and calls `Remove(key)`. -/
def Set (i : MemoryMap) (key value : GoString) (seconds : Int) : MemoryMap :=
  { cached := mapAssign i.cached key value
    spawned := i.spawned ++ [{ key := key, delay := time.secondsDuration seconds }] }

/-- Go `(*MemoryMap).Remove`. -/
def Remove (i : MemoryMap) (key : GoString) : MemoryMap × Option GoError :=
  ({ i with cached := mapDelete i.cached key }, none)

/-- Go `(*MemoryMap).RemovePrefix`: `for k := range i.cached`, deleting each
key that has the prefix. -/
def RemovePrefix (i : MemoryMap) (pre : GoString) : MemoryMap × Option GoError :=
  ({ i with
      cached := (i.cached.map Prod.fst).foldl
        (fun m k => if strings.HasPrefix k pre then mapDelete m k else m) i.cached },
   none)

/-- Go `(*MemoryMap).Reset`: `i.cached = make(map[string]string)`. -/
def Reset (i : MemoryMap) : MemoryMap := { i with cached := [] }

/-- Go `(*MemoryMap).SetIfNotExist`. -/
def SetIfNotExist (i : MemoryMap) (key value : GoString) (seconds : Int) :
    MemoryMap × Bool :=
  if Exist i key then (i, false)
  else
    ({ cached := mapAssign i.cached key value
       spawned := i.spawned ++ [{ key := key, delay := time.secondsDuration seconds }] },
     true)

/-- Go `(*MemoryMap).Incr`; `v + 1` is an `int` addition. -/
def Incr (i : MemoryMap) (key : GoString) : MemoryMap × Int × Option GoError :=
  match strconv.Atoi (mapIndex i.cached key) with
  | (_, some e) => (i, -1, some (GoError.numError e))
  | (v, none) =>
    ({ i with cached := mapAssign i.cached key (strconv.Itoa (wrap64 (v + 1))) },
     wrap64 (v + 1), none)

/-- Go `(*MemoryMap).GetInt64`. -/
def GetInt64 (i : MemoryMap) (key : GoString) (fallback : Int) : Int :=
  let val := Get i key (strconv.FormatInt fallback)
  match strconv.ParseInt val with
  | (_, some _) => fallback
  | (result, none) => result

/-- The `n`-th spawned expiration goroutine runs: it leaves `spawned` and
its `i.Remove(key)` is executed. -/
def fire (i : MemoryMap) (n : Nat) : MemoryMap :=
  match i.spawned[n]? with
  | none => i
  | some e => (Remove { i with spawned := i.spawned.eraseIdx n } e.key).1

/-- The `n`-th spawned expiration goroutine, `elapsed` nanoseconds after it
was started: it is still blocked on the channel of `time.After` while the
delay has not elapsed, and runs once it has. -/
def fireAfter (i : MemoryMap) (n : Nat) (elapsed : Int) : MemoryMap :=
  match i.spawned[n]? with
  | none => i
  | some e => if e.ready elapsed then fire i n else i

/-- Go `(*MemoryMap).SetMarshal` for values of type `α`; `marshal` is
`json.Marshal` on those values, returning the bytes and the error. -/
def SetMarshal {α : Type} (marshal : α → GoString × Option GoError)
    (i : MemoryMap) (key : GoString) (canMarshalVal : α) (seconds : Int) :
    MemoryMap × Option GoError :=
  match marshal canMarshalVal with
  | (_, some err) => (i, some err)
  | (bytes, none) => (Set i key bytes seconds, none)

/-- Go `(*MemoryMap).GetMarshal` for a target of type `α`; `unmarshal data y`
is `json.Unmarshal(data, &y)`, returning what `y` holds afterwards and the
error. The result is what the target holds after the call, and the error. -/
def GetMarshal {α : Type} (unmarshal : GoString → α → α × Option GoError)
    (i : MemoryMap) (key : GoString) (unMarshal : α) : α × Option GoError :=
  match GetOrErr i key with
  | (_, some err) => (unMarshal, some err)
  | (cached, none) => unmarshal cached unMarshal

/-- The JSON text of a Go `bool`: `true` or `false`; encoding never fails. -/
def marshalBool (b : Bool) : GoString × Option GoError :=
  (if b then ascii "true" else ascii "false", none)

/-- The function `json.Marshal` on the values of type `string`, as the
`marshal` of `SetMarshal`. -/
def marshalString (v : GoString) : GoString × Option GoError :=
  (json.MarshalString v, none)

/-- The function `json.Unmarshal` on a target of type `string`, as the
`unmarshal` of `GetMarshal`. -/
def unmarshalString (data y : GoString) : GoString × Option GoError :=
  ((json.UnmarshalString data y).1,
   (json.UnmarshalString data y).2.map GoError.jsonDecodeError)

/-- An encoder that always fails, as `json.Marshal` does on a channel. -/
def marshalChan (_ : Unit) : GoString × Option GoError :=
  ([], some (GoError.jsonError (ascii "json: unsupported type: chan int")))

/-- The sequence `Incr(key)`, `Incr(key)`, ... of `n` calls one after another:
the final store and the results of the calls in order. -/
def IncrTimes : Nat → MemoryMap → GoString → MemoryMap × List (Int × Option GoError)
  | 0, i, _ => (i, [])
  | n + 1, i, key =>
    let r := Incr i key
    let rest := IncrTimes n r.1 key
    (rest.1, r.2 :: rest.2)

/-! ### The guard

The mutex does not show in the results of the methods; what each method does
with it is recorded separately, as the sequence of guard operations and
container accesses the method performs, in program order. -/

/-- One operation on the guard or on the container `i.cached`. -/
inductive Step where
  /-- The call `i.lock.Lock()`. -/
  | Lock
  /-- The deferred `i.lock.Unlock()`, run when the method returns. -/
  | Unlock
  /-- A read or a write of `i.cached`. -/
  | Access
  /-- A `go` statement. -/
  | Go
  deriving DecidableEq, Repr

/-- `Set`: `Lock`, `i.cached[key] = value`, `go func()`, return. -/
def SetSteps : List Step := [Step.Lock, Step.Access, Step.Go, Step.Unlock]

/-- `Remove`: `Lock`, `delete(i.cached, key)`, return. This is also what an
expiration goroutine does after its wait. -/
def RemoveSteps : List Step := [Step.Lock, Step.Access, Step.Unlock]

/-- `RemovePrefix`: `Lock`, the `range` over `i.cached`, one `delete` for each
key that has the prefix, return. -/
def RemovePrefixSteps (i : MemoryMap) (pre : GoString) : List Step :=
  Step.Lock :: Step.Access ::
    ((i.cached.map Prod.fst).flatMap
        (fun k => if strings.HasPrefix k pre then [Step.Access] else []) ++
      [Step.Unlock])

/-- `Reset`: the assignment `i.cached = make(map[string]string)`, return. -/
def ResetSteps : List Step := [Step.Access]

/-- `SetIfNotExist`: `Lock`, the lookup of `i.Exist(key)`, then either return,
or `i.cached[key] = value`, `go func()`, return. -/
def SetIfNotExistSteps (i : MemoryMap) (key : GoString) : List Step :=
  if Exist i key then [Step.Lock, Step.Access, Step.Unlock]
  else [Step.Lock, Step.Access, Step.Access, Step.Go, Step.Unlock]

/-- `Incr`: `Lock`, the read `i.cached[key]`, then either return with the
error, or `i.cached[key] = ...`, return. -/
def IncrSteps (i : MemoryMap) (key : GoString) : List Step :=
  match strconv.Atoi (mapIndex i.cached key) with
  | (_, some _) => [Step.Lock, Step.Access, Step.Unlock]
  | (_, none) => [Step.Lock, Step.Access, Step.Access, Step.Unlock]

/-- Whether every container access of a sequence happens while the guard is
held, `held` telling whether it is held at the start. -/
def guardedFrom (held : Bool) : List Step → Bool
  | [] => true
  | Step.Lock :: rest => guardedFrom true rest
  | Step.Unlock :: rest => guardedFrom false rest
  | Step.Access :: rest => held && guardedFrom held rest
  | Step.Go :: rest => guardedFrom held rest

/-- A method is guarded when, entered without the guard, it accesses the
container only between its `Lock` and its `Unlock`. -/
def guarded (steps : List Step) : Bool := guardedFrom false steps

/-- The store of the `RemovePrefix` example: `user:1`, `user:2`, `order:1`. -/
def usersAndOrders : MemoryMap :=
  Set (Set (Set InMemory (ascii "user:1") (ascii "a") 60) (ascii "user:2") (ascii "b") 60)
    (ascii "order:1") (ascii "c") 60

end cache

/-! ## go_nnet: the neuron

The embedding of `Neuron`, `Initialize`, `InitializeWeights` and `Process` of
`src/go-nnet/main.go`. The claims about them concern slice lengths and index
accesses only, so the type of the weights and the arithmetic on it are kept
abstract: `F` stands for `float64`. A result `none` means that the call does
not return: a run-time panic or a fatal error of the run time. -/

namespace go_nnet

/-- The `float64` values and operations the neuron code uses. -/
structure Float64Ops (F : Type) where
  /-- The zero value `0.0`. -/
  zero : F
  /-- The sum `x + y`. -/
  add : F → F → F
  /-- The product `x * y`. -/
  mul : F → F → F
  /-- The expression `math.Pow(float64(nWeights), -0.5)`. -/
  invSqrt : Int → F

/-- The struct `Neuron`; of the embedded `Activator` only `Activate` is kept. -/
structure Neuron (F : Type) where
  Weights : List F
  nWeights : Int
  Activate : F → F

/-- What `make` depends on in the Go run time. -/
structure Runtime where
  /-- The constant `runtime.maxAlloc`: the largest size in bytes of one
  allocation, a `uintptr`. -/
  maxAlloc : Nat
  /-- Whether the heap can supply a block of that many bytes when `make` asks
  for it; when it cannot, `mallocgc` stops the program with the fatal error
  `out of memory`. -/
  canAlloc : Nat → Bool

/-- The run time of linux/amd64: `maxAlloc = 1 << 48` (`heapAddrBits = 48`),
with a heap that supplies every block it is asked for. -/
def linuxAmd64 : Runtime := { maxAlloc := 2 ^ 48, canAlloc := fun _ => true }

/-- The builtin `make([]float64, n)`, that is `runtime.makeslice` for an
element size of 8 bytes: `mem, overflow := math.MulUintptr(8, uintptr(n))`,
the panic `makeslice: len out of range` when
`overflow || mem > maxAlloc || n < 0`, else `mallocgc(mem)`, which gives `n`
zero values or stops the program when the heap cannot supply the block. -/
def makeSlice {F : Type} (rt : Runtime) (ops : Float64Ops F) (n : Int) :
    Option (List F) :=
  let mem := 8 * n.toNat
  if n < 0 ∨ mem ≥ 2 ^ 64 ∨ mem > rt.maxAlloc then none
  else if rt.canAlloc mem then some (List.replicate n.toNat ops.zero)
  else none

/-- Go `(*Neuron).InitializeWeights`: `for i := range n.Weights`, the
assignment `n.Weights[i] = rand.NormFloat64() * math.Pow(...)`; `norm i` is
the value `rand.NormFloat64()` returns in iteration `i`. -/
def InitializeWeights {F : Type} (ops : Float64Ops F) (norm : Nat → F) (n : Neuron F) :
    Neuron F :=
  { n with
    Weights := (List.range n.Weights.length).foldl
      (fun w i => w.set i (ops.mul (norm i) (ops.invSqrt n.nWeights))) n.Weights }

/-- Go `(*Neuron).Initialize`; `nInputs + 1` is an `int` addition. -/
def Initialize {F : Type} (rt : Runtime) (ops : Float64Ops F) (norm : Nat → F)
    (n : Neuron F) (nInputs : Int) (r : F → F) : Option (Neuron F) :=
  let nWeights := wrap64 (nInputs + 1)
  match makeSlice rt ops nWeights with
  | none => none
  | some w =>
    some (InitializeWeights ops norm { n with Activate := r, nWeights := nWeights, Weights := w })

/-- The loop `for i, val := range input { sum += val * n.Weights[i] }` of
`Process`, from index `i` on; an index out of range is a panic. -/
def processLoop {F : Type} (ops : Float64Ops F) (weights : List F) :
    Nat → List F → F → Option F
  | _, [], sum => some sum
  | i, val :: rest, sum =>
    match weights[i]? with
    | none => none
    | some w => processLoop ops weights (i + 1) rest (ops.add sum (ops.mul val w))

/-- Go `(*Neuron).Process`: the loop, then `sum += n.Weights[len(n.Weights)-1]`,
then `return n.Activate(sum), sum`. -/
def Process {F : Type} (ops : Float64Ops F) (n : Neuron F) (input : List F) :
    Option (F × F) :=
  match processLoop ops n.Weights 0 input ops.zero with
  | none => none
  | some sum =>
    if n.Weights.length = 0 then none
    else
      match n.Weights[n.Weights.length - 1]? with
      | none => none
      | some bias => some (n.Activate (ops.add sum bias), ops.add sum bias)

/-- Integer arithmetic standing in for `float64`, for concrete examples. -/
def intOps : Float64Ops Int :=
  { zero := 0, add := fun x y => x + y, mul := fun x y => x * y, invSqrt := fun _ => 1 }

/-- A neuron before `Initialize`: the zero value of the struct, with the
identity as activation. -/
def zeroNeuron : Neuron Int := { Weights := [], nWeights := 0, Activate := fun x => x }

end go_nnet

/-! ## Facts about strconv -/

namespace strconv

theorem parseUintLoop_cons_digit (n : Nat) (c : UInt8) (cs : GoString) (hc : isDigit c) :
    parseUintLoop n (c :: cs)
      = if n ≥ 1844674407370955162 ∨ digitStep n c ≥ 2 ^ 64
        then (maxUint64, some NumError.ErrRange)
        else parseUintLoop (digitStep n c) cs := by
  unfold isDigit at hc
  rw [parseUintLoop]
  simp only [hc, and_self, if_true]
  have hd : ¬ (c.toNat - 48 ≥ 10) := by omega
  simp only [hd, if_false, maxUint64, digitStep]
  by_cases hn : n ≥ 1844674407370955162
  · simp [hn]
  · have h10 : n * 10 % 18446744073709551616 = n * 10 := Nat.mod_eq_of_lt (by omega)
    by_cases ho : 18446744073709551616 ≤ n * 10 + (c.toNat - 48)
    · have : (n * 10 + (c.toNat - 48)) % 18446744073709551616 < n * 10 := by omega
      simp [hn, h10, ho, this]
    · have h1 : (n * 10 + (c.toNat - 48)) % 18446744073709551616
          = n * 10 + (c.toNat - 48) := Nat.mod_eq_of_lt (by omega)
      have h2 : ¬ (n * 10 + (c.toNat - 48) < n * 10) := by omega
      have h3 : ¬ (18446744073709551615 < n * 10 + (c.toNat - 48)) := by omega
      simp [hn, h10, ho, h1, h2, h3]

theorem parseUintLoop_cons_nondigit (n : Nat) (c : UInt8) (cs : GoString)
    (hc : ¬ isDigit c) :
    parseUintLoop n (c :: cs) = (0, some NumError.ErrSyntax) := by
  unfold isDigit at hc
  rw [parseUintLoop]
  simp only [hc, if_false]
  by_cases hl : 97 ≤ lower c.toNat ∧ lower c.toNat ≤ 122
  · have hd : (lower c.toNat - 97 + 10) % 256 ≥ 10 := by omega
    simp [hl, hd]
  · simp [hl]

theorem le_foldl_digitStep (cs : GoString) (n : Nat) : n ≤ cs.foldl digitStep n := by
  induction cs generalizing n with
  | nil => simp
  | cons c cs ih =>
    rw [List.foldl_cons]
    have h1 := ih (digitStep n c)
    unfold digitStep at h1 ⊢
    omega

/-- The `ParseUint` loop on a string of digits: the value read, or a range
error as soon as the value does not fit in 64 bits. -/
theorem parseUintLoop_digits (cs : GoString) (n : Nat) (hcs : ∀ c ∈ cs, isDigit c) :
    parseUintLoop n cs
      = if cs = [] ∨ cs.foldl digitStep n < 2 ^ 64
        then (cs.foldl digitStep n, none)
        else (maxUint64, some NumError.ErrRange) := by
  induction cs generalizing n with
  | nil => simp [parseUintLoop]
  | cons c cs ih =>
    have hc : isDigit c := hcs c (List.mem_cons_self _ _)
    have hrest : ∀ x ∈ cs, isDigit x := fun x hx => hcs x (List.mem_cons_of_mem _ hx)
    rw [parseUintLoop_cons_digit n c cs hc, List.foldl_cons]
    have hmono := le_foldl_digitStep cs (digitStep n c)
    by_cases hov : n ≥ 1844674407370955162 ∨ digitStep n c ≥ 2 ^ 64
    · have hbig : ¬ (c :: cs = [] ∨ cs.foldl digitStep (digitStep n c) < 2 ^ 64) := by
        unfold digitStep at hov hmono ⊢
        rintro (h | h)
        · exact List.cons_ne_nil _ _ h
        · omega
      rw [if_pos hov, if_neg hbig]
    · rw [if_neg hov, ih _ hrest]
      by_cases hcs0 : cs = []
      · subst hcs0
        have h1 : digitStep n c < 2 ^ 64 := by omega
        rw [if_pos (Or.inl rfl), if_pos (Or.inr (by simpa using h1))]
      · by_cases hlt : cs.foldl digitStep (digitStep n c) < 2 ^ 64
        · rw [if_pos (Or.inr hlt), if_pos (Or.inr hlt)]
        · rw [if_neg (fun h => h.elim hcs0 hlt),
            if_neg (fun h => h.elim (List.cons_ne_nil _ _) hlt)]

/-- The `ParseUint` loop on a string with a byte that is not a digit fails,
with a syntax error or, when the digits before that byte overflow, with a
range error and the value `maxUint64`. -/
theorem parseUintLoop_nondigit (cs : GoString) (n : Nat) (hcs : ¬ ∀ c ∈ cs, isDigit c) :
    parseUintLoop n cs = (0, some NumError.ErrSyntax) ∨
    parseUintLoop n cs = (maxUint64, some NumError.ErrRange) := by
  induction cs generalizing n with
  | nil => simp at hcs
  | cons c cs ih =>
    by_cases hc : isDigit c
    · have hrest : ¬ ∀ x ∈ cs, isDigit x := by
        intro h
        apply hcs
        intro x hx
        rcases List.mem_cons.mp hx with rfl | hx
        · exact hc
        · exact h x hx
      rw [parseUintLoop_cons_digit n c cs hc]
      by_cases hov : n ≥ 1844674407370955162 ∨ digitStep n c ≥ 2 ^ 64
      · rw [if_pos hov]
        exact Or.inr rfl
      · rw [if_neg hov]
        exact ih _ hrest
    · exact Or.inl (parseUintLoop_cons_nondigit n c cs hc)

theorem ParseUint_of_digitsValue (ds : GoString) (u : Nat) (h : digitsValue ds = some u) :
    ParseUint ds
      = if u < 2 ^ 64 then (u, none) else (maxUint64, some NumError.ErrRange) := by
  unfold digitsValue at h
  split at h
  · rename_i hd
    obtain ⟨hne, hall⟩ := hd
    simp only [Option.some.injEq] at h
    subst h
    unfold ParseUint
    rw [if_neg hne, parseUintLoop_digits ds 0 hall]
    by_cases hlt : ds.foldl digitStep 0 < 2 ^ 64
    · rw [if_pos (Or.inr hlt), if_pos hlt]
    · rw [if_neg (fun h => h.elim hne hlt), if_neg hlt]
  · simp at h

theorem ParseUint_of_digitsValue_none (ds : GoString) (h : digitsValue ds = none) :
    ParseUint ds = (0, some NumError.ErrSyntax) ∨
    ParseUint ds = (maxUint64, some NumError.ErrRange) := by
  unfold digitsValue at h
  split at h
  · simp at h
  · rename_i hd
    unfold ParseUint
    by_cases hne : ds = []
    · simp [hne]
    · rw [if_neg hne]
      apply parseUintLoop_nondigit
      intro hall
      exact hd ⟨hne, hall⟩

/-- The part of `ParseInt` after the call of `ParseUint`, for a magnitude
that was read from digits. -/
theorem ParseInt_finish (c : UInt8) (rest body : GoString) (u : Nat)
    (hbody : body = if c = 43 ∨ c = 45 then rest else c :: rest)
    (hu : digitsValue body = some u) :
    ParseInt (c :: rest)
      = if c = 45 then
          (if u ≤ 2 ^ 63 then (-(u : Int), none)
           else (-(2 ^ 63 : Int), some NumError.ErrRange))
        else
          (if u < 2 ^ 63 then ((u : Int), none)
           else ((2 ^ 63 : Int) - 1, some NumError.ErrRange)) := by
  have hP := ParseUint_of_digitsValue body u hu
  rw [hbody] at hP
  unfold ParseInt
  simp only [hP]
  by_cases h64 : u < 2 ^ 64
  · rw [if_pos h64]
    by_cases hneg : c = 45
    · by_cases hle : u ≤ 2 ^ 63
      · have hw : wrap64 (-(wrap64 (u : Int))) = -(u : Int) := by
          unfold wrap64
          omega
        have h1 : ¬ (u > 2 ^ 63) := by omega
        have h1b : ¬ (2 ^ 63 < u) := by omega
        simp only [hneg, if_true, hle, decide_True, Bool.not_true, Bool.false_eq_true,
          false_and, if_false, true_and, gt_iff_lt, h1b, hw, ge_iff_le]
      · have h1 : 2 ^ 63 < u := by omega
        simp only [hneg, if_true, hle, decide_True, Bool.not_true, Bool.false_eq_true,
          false_and, if_false, true_and, gt_iff_lt, h1, ge_iff_le, Nat.cast_pow,
          Nat.cast_ofNat]
    · by_cases hlt : u < 2 ^ 63
      · have hw : wrap64 (u : Int) = (u : Int) := by
          unfold wrap64
          omega
        have h1 : ¬ (2 ^ 63 ≤ u) := by omega
        simp only [hneg, if_false, decide_False, Bool.not_false, true_and, ge_iff_le, h1,
          Bool.false_eq_true, false_and, hw, hlt, if_true]
      · have h1 : 2 ^ 63 ≤ u := by omega
        simp only [hneg, if_false, decide_False, Bool.not_false, true_and, ge_iff_le, h1,
          if_true, hlt, Nat.cast_pow, Nat.cast_ofNat]
  · rw [if_neg h64]
    by_cases hneg : c = 45
    · have hle : ¬ (u ≤ 2 ^ 63) := by omega
      simp only [hneg, if_true, hle, if_false, decide_True, Bool.not_true,
        Bool.false_eq_true, false_and, true_and, gt_iff_lt, maxUint64]
      simp
    · have hlt : ¬ (u < 2 ^ 63) := by omega
      simp only [hneg, if_false, hlt, decide_False, Bool.not_false, true_and, ge_iff_le,
        maxUint64]
      simp

/-- `ParseInt` on a string that denotes the integer `n`: `n` itself when it
is an int64, else a range error with the nearest int64. -/
theorem ParseInt_of_decimalValue (s : GoString) (n : Int) (h : decimalValue s = some n) :
    ParseInt s
      = if inInt64 n then (n, none)
        else (if n < 0 then -(2 ^ 63 : Int) else (2 ^ 63 : Int) - 1,
              some NumError.ErrRange) := by
  cases s with
  | nil => simp [decimalValue] at h
  | cons c rest =>
    simp only [decimalValue] at h
    by_cases h45 : c = 45
    · rw [if_pos h45] at h
      obtain ⟨u, hu, hn⟩ := Option.map_eq_some'.mp h
      rw [ParseInt_finish c rest rest u (by simp [h45]) hu, if_pos h45]
      subst hn
      unfold inInt64
      by_cases hle : u ≤ 2 ^ 63
      · rw [if_pos hle, if_pos (by omega)]
      · rw [if_neg hle, if_neg (by omega), if_pos (by omega)]
    · rw [if_neg h45] at h
      have key : ∀ body : GoString, (body = if c = 43 ∨ c = 45 then rest else c :: rest) →
          (digitsValue body).map (fun (u : Nat) => (u : Int)) = some n →
          ParseInt (c :: rest)
            = if inInt64 n then (n, none)
              else (if n < 0 then -(2 ^ 63 : Int) else (2 ^ 63 : Int) - 1,
                    some NumError.ErrRange) := by
        intro body hbody hmap
        obtain ⟨u, hu, hn⟩ := Option.map_eq_some'.mp hmap
        rw [ParseInt_finish c rest body u hbody hu, if_neg h45]
        subst hn
        unfold inInt64
        by_cases hlt : u < 2 ^ 63
        · rw [if_pos hlt, if_pos (by omega)]
        · rw [if_neg hlt, if_neg (by omega), if_neg (by omega)]
      by_cases h43 : c = 43
      · rw [if_pos h43] at h
        exact key rest (by simp [h43]) h
      · rw [if_neg h43] at h
        exact key (c :: rest) (by simp [h43, h45]) h

/-- `ParseInt` fails on a string that denotes no integer. -/
theorem ParseInt_of_decimalValue_none (s : GoString) (h : decimalValue s = none) :
    (ParseInt s).2 ≠ none := by
  cases s with
  | nil => simp [ParseInt]
  | cons c rest =>
    simp only [decimalValue] at h
    have key : ∀ body : GoString, (body = if c = 43 ∨ c = 45 then rest else c :: rest) →
        digitsValue body = none → (ParseInt (c :: rest)).2 ≠ none := by
      intro body hbody hnone
      have hP := ParseUint_of_digitsValue_none body hnone
      rw [hbody] at hP
      unfold ParseInt
      rcases hP with hP | hP
      · simp only [hP]
        simp
      · simp only [hP, maxUint64]
        by_cases h45 : c = 45
        · simp [h45]
        · simp [h45]
    by_cases h45 : c = 45
    · rw [if_pos h45] at h
      exact key rest (by simp [h45]) (by simpa using h)
    · rw [if_neg h45] at h
      by_cases h43 : c = 43
      · rw [if_pos h43] at h
        exact key rest (by simp [h43]) (by simpa using h)
      · rw [if_neg h43] at h
        exact key (c :: rest) (by simp [h43, h45]) (by simpa using h)

/-- The fast-path loop of `Atoi` and the loop of `ParseUint` agree on strings
short enough for the fast path. -/
theorem atoiLoop_parseUintLoop (cs : GoString) (n k : Nat) (hn : n < 10 ^ k)
    (hk : k + cs.length ≤ 18) :
    (atoiLoop (n : Int) cs = none ∧ parseUintLoop n cs = (0, some NumError.ErrSyntax)) ∨
    (∃ r : Nat, r < 10 ^ 18 ∧ atoiLoop (n : Int) cs = some (r : Int) ∧
      parseUintLoop n cs = (r, none)) := by
  induction cs generalizing n k with
  | nil =>
    right
    refine ⟨n, ?_, by simp [atoiLoop], by simp [parseUintLoop]⟩
    exact lt_of_lt_of_le hn (Nat.pow_le_pow_right (by decide) (by simpa using hk))
  | cons c cs ih =>
    have hc256 : c.toNat < 256 := UInt8.toNat_lt c
    have hk1 : k + 1 ≤ 18 := by simp only [List.length_cons] at hk; omega
    have hpow : 10 ^ (k + 1) ≤ 10 ^ 18 := Nat.pow_le_pow_right (by decide) hk1
    have hsucc : 10 ^ (k + 1) = 10 ^ k * 10 := Nat.pow_succ 10 k
    by_cases hc : isDigit c
    · have hcd := hc
      unfold isDigit at hcd
      have hch : (c.toNat + 256 - 48) % 256 = c.toNat - 48 := by omega
      have hstep : digitStep n c < 10 ^ (k + 1) := by
        unfold digitStep
        omega
      have hw : wrap64 ((n : Int) * 10 + ((c.toNat - 48 : Nat) : Int))
          = ((digitStep n c : Nat) : Int) := by
        unfold digitStep at hstep ⊢
        unfold wrap64
        omega
      have hov : ¬ (n ≥ 1844674407370955162 ∨ digitStep n c ≥ 2 ^ 64) := by
        unfold digitStep at hstep ⊢
        omega
      have hA : atoiLoop (n : Int) (c :: cs) = atoiLoop ((digitStep n c : Nat) : Int) cs := by
        rw [atoiLoop]
        simp only [hch]
        rw [if_neg (by omega), hw]
      rw [hA, parseUintLoop_cons_digit n c cs hc, if_neg hov]
      exact ih (digitStep n c) (k + 1) hstep
        (by simp only [List.length_cons] at hk; omega)
    · left
      have hcd := hc
      unfold isDigit at hcd
      have hch : (c.toNat + 256 - 48) % 256 > 9 := by omega
      refine ⟨?_, parseUintLoop_cons_nondigit n c cs hc⟩
      rw [atoiLoop]
      simp only [hch, if_true]

theorem ParseInt_of_ParseUint_bad (c : UInt8) (rest : GoString)
    (h : ParseUint (if c = 43 ∨ c = 45 then rest else c :: rest)
      = (0, some NumError.ErrSyntax)) :
    ParseInt (c :: rest) = (0, some NumError.ErrSyntax) := by
  unfold ParseInt
  simp only [h]

theorem ParseInt_of_ParseUint_small (c : UInt8) (rest : GoString) (r : Nat)
    (h : ParseUint (if c = 43 ∨ c = 45 then rest else c :: rest) = (r, none))
    (hr : r < 10 ^ 18) :
    ParseInt (c :: rest) = (if c = 45 then wrap64 (-(r : Int)) else (r : Int), none) := by
  have hw : wrap64 (r : Int) = (r : Int) := by
    unfold wrap64
    omega
  have h1 : ¬ (2 ^ 63 ≤ r) := by omega
  have h2 : ¬ (2 ^ 63 < r) := by omega
  unfold ParseInt
  simp only [h]
  by_cases h45 : c = 45
  · simp only [h45, decide_True, Bool.not_true, Bool.false_eq_true, false_and, if_false,
      true_and, gt_iff_lt, h2, hw, if_true, ge_iff_le]
  · simp only [h45, decide_False, Bool.not_false, true_and, ge_iff_le, h1, if_false,
      Bool.false_eq_true, false_and, hw]

/-- On every string `Atoi` (with a 64-bit `int`) returns what
`ParseInt(s, 10, 64)` returns: the fast path computes the same result. -/
theorem Atoi_eq_ParseInt (s : GoString) : Atoi s = ParseInt s := by
  unfold Atoi
  by_cases hlen : 0 < s.length ∧ s.length < 19
  · rw [if_pos hlen]
    cases s with
    | nil => simp at hlen
    | cons c rest =>
      simp only [List.length_cons] at hlen
      by_cases hs : c = 45 ∨ c = 43
      · have hs2 : c = 43 ∨ c = 45 := hs.symm
        by_cases hr : rest = []
        · subst hr
          rw [ParseInt_of_ParseUint_bad c [] (by simp [hs2, ParseUint])]
          simp [hs]
        · have hpos : ¬ (rest.length < 1) := by
            have := List.length_pos.mpr hr
            omega
          have hPU : ParseUint (if c = 43 ∨ c = 45 then rest else c :: rest)
              = parseUintLoop 0 rest := by
            rw [if_pos hs2]
            unfold ParseUint
            rw [if_neg hr]
          rcases atoiLoop_parseUintLoop rest 0 0 (by decide) (by omega) with
            ⟨hA, hP⟩ | ⟨r, hr18, hA, hP⟩
          · rw [ParseInt_of_ParseUint_bad c rest (hPU.trans hP)]
            simp only [Nat.cast_zero] at hA
            simp [hs, hpos, hA]
          · rw [ParseInt_of_ParseUint_small c rest r (hPU.trans hP) hr18]
            simp only [Nat.cast_zero] at hA
            simp [hs, hpos, hA]
      · have hs2 : ¬ (c = 43 ∨ c = 45) := fun h => hs h.symm
        have hPU : ParseUint (if c = 43 ∨ c = 45 then rest else c :: rest)
            = parseUintLoop 0 (c :: rest) := by
          rw [if_neg hs2]
          unfold ParseUint
          rw [if_neg (List.cons_ne_nil _ _)]
        have h45 : ¬ c = 45 := fun h => hs (Or.inl h)
        have h43 : ¬ c = 43 := fun h => hs (Or.inr h)
        rcases atoiLoop_parseUintLoop (c :: rest) 0 0 (by decide)
            (by simp only [List.length_cons]; omega) with
          ⟨hA, hP⟩ | ⟨r, hr18, hA, hP⟩
        · rw [ParseInt_of_ParseUint_bad c rest (hPU.trans hP)]
          simp only [Nat.cast_zero] at hA
          simp [h43, h45, hA]
        · rw [ParseInt_of_ParseUint_small c rest r (hPU.trans hP) hr18]
          simp only [Nat.cast_zero] at hA
          simp [h43, h45, hA]
  · rw [if_neg hlen]

theorem toNat_digitByte (d : Nat) (hd : d < 10) : (UInt8.ofNat (48 + d)).toNat = 48 + d :=
  UInt8.toNat_ofNat_of_lt (by simp only [UInt8.size]; omega)

theorem formatBitsLoop_append (fuel u : Nat) (acc : GoString) :
    formatBitsLoop fuel u acc = formatBitsLoop fuel u [] ++ acc := by
  induction fuel generalizing u acc with
  | zero => simp [formatBitsLoop]
  | succ fuel ih =>
    rw [formatBitsLoop, formatBitsLoop]
    by_cases h : u ≥ 10
    · rw [if_pos h, if_pos h, ih (u / 10) (_ :: acc), ih (u / 10) [_]]
      simp
    · rw [if_neg h, if_neg h]
      simp

/-- The digit loop of `formatBits` writes a non-empty string of decimal
digits whose value is `u`, when the buffer has room for the digits of `u`. -/
theorem formatBitsLoop_spec (fuel u : Nat) (hu : u < 10 ^ (fuel + 1)) :
    formatBitsLoop (fuel + 1) u [] ≠ [] ∧
    (∀ c ∈ formatBitsLoop (fuel + 1) u [], isDigit c) ∧
    (formatBitsLoop (fuel + 1) u []).foldl digitStep 0 = u := by
  induction fuel generalizing u with
  | zero =>
    have hu10 : u < 10 := by simpa using hu
    have hb := toNat_digitByte u hu10
    rw [formatBitsLoop, if_neg (by omega)]
    refine ⟨List.cons_ne_nil _ _, ?_, ?_⟩
    · intro c hc
      rw [List.mem_singleton] at hc
      subst hc
      unfold isDigit
      omega
    · simp only [List.foldl_cons, List.foldl_nil, digitStep]
      omega
  | succ fuel ih =>
    rw [formatBitsLoop]
    by_cases h : u ≥ 10
    · rw [if_pos h, formatBitsLoop_append]
      have hsucc : 10 ^ (fuel + 1 + 1) = 10 ^ (fuel + 1) * 10 := Nat.pow_succ 10 (fuel + 1)
      have hdiv : u / 10 < 10 ^ (fuel + 1) := by omega
      obtain ⟨_, hall, hval⟩ := ih (u / 10) hdiv
      have hb := toNat_digitByte (u % 10) (Nat.mod_lt _ (by decide))
      refine ⟨by simp, ?_, ?_⟩
      · intro c hc
        rcases List.mem_append.mp hc with hc | hc
        · exact hall c hc
        · rw [List.mem_singleton] at hc
          subst hc
          unfold isDigit
          omega
      · rw [List.foldl_append, hval]
        simp only [List.foldl_cons, List.foldl_nil, digitStep]
        omega
    · rw [if_neg h]
      have hb := toNat_digitByte u (by omega)
      refine ⟨List.cons_ne_nil _ _, ?_, ?_⟩
      · intro c hc
        rw [List.mem_singleton] at hc
        subst hc
        unfold isDigit
        omega
      · simp only [List.foldl_cons, List.foldl_nil, digitStep]
        omega

theorem digitsValue_formatBitsLoop (fuel u : Nat) (hu : u < 10 ^ (fuel + 1)) :
    digitsValue (formatBitsLoop (fuel + 1) u []) = some u := by
  obtain ⟨hne, hall, hval⟩ := formatBitsLoop_spec fuel u hu
  unfold digitsValue
  rw [if_pos ⟨hne, hall⟩, hval]

/-- Round trip: the string `FormatInt` writes for an int64 denotes that int64. -/
theorem decimalValue_FormatInt (n : Int) (hn : inInt64 n) :
    decimalValue (FormatInt n) = some n := by
  unfold inInt64 at hn
  have hpow : (2 : Nat) ^ 64 < 10 ^ 64 := by norm_num
  unfold FormatInt
  by_cases hneg : n < 0
  · rw [if_pos hneg]
    have hu : (-n).toNat % 2 ^ 64 = (-n).toNat := Nat.mod_eq_of_lt (by omega)
    rw [hu]
    have hd := digitsValue_formatBitsLoop 63 (-n).toNat (by omega)
    simp only [decimalValue, if_true, hd, Option.map_some', Option.some.injEq]
    omega
  · rw [if_neg hneg]
    have hu : n.toNat % 2 ^ 64 = n.toNat := Nat.mod_eq_of_lt (by omega)
    rw [hu]
    have hd := digitsValue_formatBitsLoop 64 n.toNat (by omega)
    obtain ⟨hne, hall, _⟩ := formatBitsLoop_spec 64 n.toNat (by omega)
    cases hfb : formatBitsLoop (64 + 1) n.toNat [] with
    | nil => exact absurd hfb hne
    | cons c rest =>
      rw [hfb] at hd hall
      have hc : isDigit c := hall c (List.mem_cons_self _ _)
      unfold isDigit at hc
      have h45 : ¬ c = 45 := by
        intro h
        rw [h] at hc
        revert hc
        decide
      have h43 : ¬ c = 43 := by
        intro h
        rw [h] at hc
        revert hc
        decide
      simp only [decimalValue, h45, h43, if_false, hd, Option.map_some', Option.some.injEq]
      omega

/-- Round trip through the parser: `ParseInt(FormatInt(n, 10), 10, 64)` is
`(n, nil)` for every int64 `n`, and so is `Atoi(Itoa(n))`. -/
theorem ParseInt_FormatInt (n : Int) (hn : inInt64 n) :
    ParseInt (FormatInt n) = (n, none) := by
  rw [ParseInt_of_decimalValue _ n (decimalValue_FormatInt n hn), if_pos hn]

theorem Atoi_Itoa (n : Int) (hn : inInt64 n) : Atoi (Itoa n) = (n, none) := by
  rw [Atoi_eq_ParseInt]
  exact ParseInt_FormatInt n hn

/-- `ParseInt` succeeds exactly on the strings that denote an int64. -/
theorem ParseInt_ok_iff (s : GoString) :
    (ParseInt s).2 = none ↔ ∃ n, decimalValue s = some n ∧ inInt64 n := by
  cases hd : decimalValue s with
  | none =>
    have := ParseInt_of_decimalValue_none s hd
    simp [this]
  | some n =>
    rw [ParseInt_of_decimalValue s n hd]
    by_cases hn : inInt64 n
    · rw [if_pos hn]
      simp [hn]
    · rw [if_neg hn]
      simp [hn]

theorem digitChar_byte (d : Nat) (hd : d < 10) :
    UInt8.ofNat (Nat.digitChar d).toNat = UInt8.ofNat (48 + d) := by
  interval_cases d <;> rfl

theorem formatBitsLoop_eq_toDigitsCore (fuel f2 u : Nat) (acc : List Char)
    (hu : u < 10 ^ (fuel + 1)) (hf2 : u < f2) :
    formatBitsLoop (fuel + 1) u (acc.map (fun ch => UInt8.ofNat ch.toNat))
      = (Nat.toDigitsCore 10 f2 u acc).map (fun ch => UInt8.ofNat ch.toNat) := by
  induction fuel generalizing f2 u acc with
  | zero =>
    have hu10 : u < 10 := by simpa using hu
    obtain ⟨f, rfl⟩ : ∃ f, f2 = f + 1 := ⟨f2 - 1, by omega⟩
    rw [formatBitsLoop, if_neg (by omega), Nat.toDigitsCore]
    have hdiv : u / 10 = 0 := by omega
    have hmod : u % 10 = u := by omega
    simp only [hdiv, if_true, hmod, List.map_cons, digitChar_byte u hu10]
  | succ fuel ih =>
    obtain ⟨f, rfl⟩ : ∃ f, f2 = f + 1 := ⟨f2 - 1, by omega⟩
    have hb := digitChar_byte (u % 10) (Nat.mod_lt _ (by decide))
    rw [formatBitsLoop, Nat.toDigitsCore]
    by_cases h : u ≥ 10
    · have hsucc : 10 ^ (fuel + 1 + 1) = 10 ^ (fuel + 1) * 10 := Nat.pow_succ 10 (fuel + 1)
      have hdiv : ¬ (u / 10 = 0) := by omega
      rw [if_pos h]
      simp only [hdiv, if_false]
      rw [← ih f (u / 10) (Nat.digitChar (u % 10) :: acc) (by omega) (by omega)]
      simp only [List.map_cons, hb]
    · have hdiv : u / 10 = 0 := by omega
      have hmod : u % 10 = u := by omega
      rw [if_neg h]
      simp only [hdiv, if_true, hmod, List.map_cons, digitChar_byte u (by omega)]

/-- The string `FormatInt` writes for an int64 is its canonical decimal numeral. -/
theorem FormatInt_eq_canonicalDecimal (n : Int) (hn : inInt64 n) :
    FormatInt n = canonicalDecimal n := by
  unfold inInt64 at hn
  have hpow : (2 : Nat) ^ 64 < 10 ^ 64 := by norm_num
  unfold FormatInt canonicalDecimal Nat.toDigits
  by_cases hneg : n < 0
  · rw [if_pos hneg, if_pos hneg]
    have hu : (-n).toNat % 2 ^ 64 = n.natAbs := by omega
    rw [hu]
    have := formatBitsLoop_eq_toDigitsCore 63 (n.natAbs + 1) n.natAbs [] (by omega)
      (by omega)
    simpa using this
  · rw [if_neg hneg, if_neg hneg]
    have hu : n.toNat % 2 ^ 64 = n.natAbs := by omega
    rw [hu]
    have := formatBitsLoop_eq_toDigitsCore 64 (n.natAbs + 1) n.natAbs [] (by omega)
      (by omega)
    simpa using this

end strconv

namespace cache

/-! ### Facts about the map primitives -/

theorem mapLookup_mapDelete (m : GoMap) (key k : GoString) :
    mapLookup (mapDelete m key) k = if k = key then none else mapLookup m k := by
  induction m with
  | nil => simp [mapDelete, mapLookup]
  | cons e rest ih =>
    obtain ⟨a, b⟩ := e
    unfold mapDelete at ih ⊢
    by_cases ha : a = key
    · subst ha
      by_cases hk : k = a
      · subst hk
        simpa [List.filter, mapLookup] using ih
      · have hk2 : ¬ a = k := fun h => hk h.symm
        simpa [List.filter, mapLookup, hk, hk2] using ih
    · by_cases hk : k = key
      · subst hk
        simpa [List.filter, mapLookup, ha] using ih
      · by_cases hak : a = k
        · simp [List.filter, mapLookup, ha, hak, hk]
        · simpa [List.filter, mapLookup, ha, hak, hk] using ih

theorem mapLookup_mapAssign (m : GoMap) (key value k : GoString) :
    mapLookup (mapAssign m key value) k
      = if k = key then some value else mapLookup m k := by
  unfold mapAssign
  by_cases hk : k = key
  · subst hk
    simp [mapLookup]
  · have hk2 : ¬ key = k := fun h => hk h.symm
    simp [mapLookup, hk, hk2, mapLookup_mapDelete]

theorem mapDelete_of_absent (m : GoMap) (key : GoString)
    (h : mapLookup m key = none) : mapDelete m key = m := by
  induction m with
  | nil => rfl
  | cons e rest ih =>
    obtain ⟨a, b⟩ := e
    by_cases ha : a = key
    · simp [mapLookup, ha] at h
    · simp only [mapLookup, ha, if_false] at h
      have := ih h
      unfold mapDelete at this ⊢
      rw [List.filter_cons_of_pos (by simpa using ha), this]

theorem mapLookup_of_not_mem_keys (m : GoMap) (k : GoString)
    (h : k ∉ m.map Prod.fst) : mapLookup m k = none := by
  induction m with
  | nil => rfl
  | cons e rest ih =>
    obtain ⟨a, b⟩ := e
    simp only [List.map_cons, List.mem_cons, not_or] at h
    have ha : ¬ a = k := fun hh => h.1 hh.symm
    simp [mapLookup, ha, ih h.2]

theorem HasPrefix_iff (s pre : GoString) :
    strings.HasPrefix s pre = true ↔ pre <+: s := by
  unfold strings.HasPrefix
  simp only [ge_iff_le, Bool.and_eq_true, decide_eq_true_eq, beq_iff_eq]
  constructor
  · rintro ⟨_, h⟩
    exact List.prefix_iff_eq_take.mpr h.symm
  · intro h
    exact ⟨h.length_le, (List.prefix_iff_eq_take.mp h).symm⟩

/-- The deletion loop of `RemovePrefix` over a list of keys. -/
theorem mapLookup_removeLoop (pre : GoString) (keys : List GoString) (m : GoMap)
    (k : GoString) :
    mapLookup
        (keys.foldl (fun m k => if strings.HasPrefix k pre then mapDelete m k else m) m) k
      = if k ∈ keys ∧ pre <+: k then none else mapLookup m k := by
  induction keys generalizing m with
  | nil => simp
  | cons a rest ih =>
    rw [List.foldl_cons, ih]
    by_cases hp : strings.HasPrefix a pre = true
    · have hpa : pre <+: a := (HasPrefix_iff a pre).mp hp
      simp only [hp, if_true, mapLookup_mapDelete, List.mem_cons]
      by_cases hk : k = a
      · subst hk
        simp [hpa]
      · simp [hk]
    · have hpa : ¬ pre <+: a := fun h => hp ((HasPrefix_iff a pre).mpr h)
      simp only [hp, List.mem_cons]
      by_cases hk : k = a
      · subst hk
        simp [hpa]
      · simp [hk]

theorem mapLookup_RemovePrefix (i : MemoryMap) (pre k : GoString) :
    mapLookup (RemovePrefix i pre).1.cached k
      = if pre <+: k then none else mapLookup i.cached k := by
  unfold RemovePrefix
  simp only [mapLookup_removeLoop]
  by_cases hk : k ∈ i.cached.map Prod.fst
  · simp [hk]
  · simp [hk, mapLookup_of_not_mem_keys _ _ hk]

theorem wrap64_of_inInt64 (x : Int) (h : inInt64 x) : wrap64 x = x := by
  unfold inInt64 at h
  unfold wrap64
  omega

theorem secondsDuration_of_small (seconds : Int)
    (h1 : -9223372036 ≤ seconds) (h2 : seconds ≤ 9223372036) :
    time.secondsDuration seconds = seconds * 1000000000 := by
  unfold time.secondsDuration time.Second
  apply wrap64_of_inInt64
  unfold inInt64
  omega

/-- What a firing expiration goroutine does: it leaves `spawned` and deletes
its key; nothing else changes. -/
theorem fire_of_spawned (j : MemoryMap) (n : Nat) (e : Expiry)
    (h : j.spawned[n]? = some e) :
    fire j n = { cached := mapDelete j.cached e.key, spawned := j.spawned.eraseIdx n } := by
  simp [fire, h, Remove]

theorem Set_spawned_last (i : MemoryMap) (k v : GoString) (t : Int) :
    (Set i k v t).spawned[i.spawned.length]?
      = some { key := k, delay := time.secondsDuration t } := by
  simp [Set]

theorem fire_Set_last (i : MemoryMap) (k v : GoString) (t : Int) :
    fire (Set i k v t) i.spawned.length
      = { cached := mapDelete (mapAssign i.cached k v) k, spawned := i.spawned } := by
  rw [fire_of_spawned _ _ _ (Set_spawned_last i k v t)]
  simp [Set, List.eraseIdx_append_of_length_le]

/-! ### The claims -/

/-- C2: `SetIfNotExist` on an absent key returns true and yields exactly the
state of `Set`; on a present key it returns false and leaves the store as it
was; so a second `SetIfNotExist` after a first one on an absent key returns
false and the key still holds the first value. -/
theorem SetIfNotExist_spec (i : MemoryMap) (key value : GoString) (seconds : Int) :
    (Exist i key = false →
      SetIfNotExist i key value seconds = (Set i key value seconds, true)) ∧
    (Exist i key = true → SetIfNotExist i key value seconds = (i, false)) ∧
    (Exist i key = false → ∀ v2 : GoString,
      (SetIfNotExist i key value seconds).2 = true ∧
      SetIfNotExist (SetIfNotExist i key value seconds).1 key v2 seconds
        = ((SetIfNotExist i key value seconds).1, false) ∧
      GetOrErr (SetIfNotExist (SetIfNotExist i key value seconds).1 key v2 seconds).1 key
        = (value, none)) := by
  have hset : Exist (Set i key value seconds) key = true := by
    simp [Exist, Set, mapLookup_mapAssign]
  refine ⟨?_, ?_, ?_⟩
  · intro h
    simp [SetIfNotExist, h, Set]
  · intro h
    simp [SetIfNotExist, h]
  · intro h v2
    have h1 : SetIfNotExist i key value seconds = (Set i key value seconds, true) := by
      simp [SetIfNotExist, h, Set]
    rw [h1]
    have h2 : SetIfNotExist (Set i key value seconds) key v2 seconds
        = (Set i key value seconds, false) := by
      simp [SetIfNotExist, hset]
    refine ⟨rfl, h2, ?_⟩
    rw [h2]
    simp [GetOrErr, Set, mapLookup_mapAssign]

/-- Witness of C2 on the empty store and on a store holding the key. -/
theorem SetIfNotExist_spec_witness :
    SetIfNotExist InMemory (ascii "k") (ascii "v1") 5
        = (Set InMemory (ascii "k") (ascii "v1") 5, true) ∧
    SetIfNotExist (Set InMemory (ascii "k") (ascii "v1") 5) (ascii "k") (ascii "v2") 5
        = (Set InMemory (ascii "k") (ascii "v1") 5, false) :=
  ⟨(SetIfNotExist_spec InMemory (ascii "k") (ascii "v1") 5).1 (by decide),
   (SetIfNotExist_spec (Set InMemory (ascii "k") (ascii "v1") 5) (ascii "k")
      (ascii "v2") 5).2.1 (by decide)⟩

/-- C5: after `RemovePrefix(pre)` a key is present iff it was present and
`pre` is not a prefix of it, surviving keys keep their value, the call returns
nil; the empty prefix removes everything, and removing `user:` from
`user:1, user:2, order:1` leaves exactly `order:1`. -/
theorem RemovePrefix_spec (i : MemoryMap) (pre k : GoString) :
    (RemovePrefix i pre).2 = none ∧
    (Exist (RemovePrefix i pre).1 k = true ↔ (Exist i k = true ∧ ¬ pre <+: k)) ∧
    (Exist (RemovePrefix i pre).1 k = true →
      GetOrErr (RemovePrefix i pre).1 k = GetOrErr i k) ∧
    Exist (RemovePrefix i []).1 k = false ∧
    (RemovePrefix usersAndOrders (ascii "user:")).1.cached
      = [(ascii "order:1", ascii "c")] := by
  refine ⟨rfl, ?_, ?_, ?_, by decide⟩
  · unfold Exist
    rw [mapLookup_RemovePrefix]
    by_cases hp : pre <+: k
    · simp [hp]
    · simp [hp]
  · unfold Exist GetOrErr
    rw [mapLookup_RemovePrefix]
    by_cases hp : pre <+: k
    · simp [hp]
    · simp [hp]
  · unfold Exist
    rw [mapLookup_RemovePrefix]
    simp

/-- Witness of C5 on the example store: `order:1` survives with its value. -/
theorem RemovePrefix_spec_witness :
    GetOrErr (RemovePrefix usersAndOrders (ascii "user:")).1 (ascii "order:1")
      = GetOrErr usersAndOrders (ascii "order:1") :=
  (RemovePrefix_spec usersAndOrders (ascii "user:") (ascii "order:1")).2.2.1 (by decide)

/-- C7: immediately after `Set(k, v, t)` the key exists and `GetOrErr` gives
`(v, nil)`, whether or not the key was there before, and every other key
keeps its presence and value. -/
theorem Set_frame (i : MemoryMap) (k v : GoString) (t : Int) :
    Exist (Set i k v t) k = true ∧
    GetOrErr (Set i k v t) k = (v, none) ∧
    ∀ k2 : GoString, k2 ≠ k →
      Exist (Set i k v t) k2 = Exist i k2 ∧
      GetOrErr (Set i k v t) k2 = GetOrErr i k2 := by
  refine ⟨?_, ?_, ?_⟩
  · simp [Exist, Set, mapLookup_mapAssign]
  · simp [GetOrErr, Set, mapLookup_mapAssign]
  · intro k2 hk
    simp [Exist, GetOrErr, Set, mapLookup_mapAssign, hk]

/-- Witness of C7: setting `user:2` leaves `user:1` as it was. -/
theorem Set_frame_witness :
    Exist (Set usersAndOrders (ascii "user:2") (ascii "z") 1) (ascii "user:1")
        = Exist usersAndOrders (ascii "user:1") ∧
    GetOrErr (Set usersAndOrders (ascii "user:2") (ascii "z") 1) (ascii "user:1")
        = GetOrErr usersAndOrders (ascii "user:1") :=
  (Set_frame usersAndOrders (ascii "user:2") (ascii "z") 1).2.2 (ascii "user:1")
    (by decide)

/-- C10: after `Reset()` the map is empty: for every key `Exist` is false and
`GetOrErr` fails, also for keys that were set before. -/
theorem Reset_empty (i : MemoryMap) (k v : GoString) (t : Int) :
    (Reset i).cached = [] ∧
    Exist (Reset i) k = false ∧
    GetOrErr (Reset i) k = ([], some GoError.dataNotFound) ∧
    Exist (Reset (Set i k v t)) k = false ∧
    (GetOrErr (Reset (Set i k v t)) k).2 ≠ none := by
  simp [Reset, Exist, GetOrErr, mapLookup]

/-- C1, refuted as stated: `Set` with `ttlSeconds = 0` does start an
expiration goroutine, so the pending expirations are not unchanged; its delay
is 0, it may run at once, and when it has run the key is gone and `Get`
returns the fallback. The same for a negative ttl and for `SetIfNotExist`. -/
theorem Set_nonpositive_ttl_counterexample :
    ¬ (∀ (i : MemoryMap) (k v : GoString) (t : Int), t ≤ 0 →
        (Set i k v t).spawned = i.spawned) ∧
    (Set InMemory (ascii "k") (ascii "v") 0).spawned
      = [{ key := ascii "k", delay := 0 }] ∧
    Expiry.ready { key := ascii "k", delay := 0 } 0 = true ∧
    Get (fireAfter (Set InMemory (ascii "k") (ascii "v") 0) 0 0) (ascii "k") (ascii "gone")
      = ascii "gone" ∧
    (Set InMemory (ascii "k") (ascii "v") (-1)).spawned
      = [{ key := ascii "k", delay := -1000000000 }] ∧
    (SetIfNotExist InMemory (ascii "k") (ascii "v") 0).1.spawned
      = [{ key := ascii "k", delay := 0 }] := by
  refine ⟨?_, by decide, by decide, by decide, by decide, by decide⟩
  intro h
  have := h InMemory (ascii "k") (ascii "v") 0 (le_refl 0)
  revert this
  decide

/-- C1, amended: for `ttlSeconds <= 0`, `Set` starts exactly one expiration
goroutine for the key, with delay `ttlSeconds * 10^9` wrapped to int64; for
`ttlSeconds >= -9223372036` that delay is `ttlSeconds * 10^9 <= 0`, so the
goroutine may run at once. Before it runs `Get(k, anything)` is `v`; after it
has run the key is absent. `SetIfNotExist` on an absent key does the same. -/
theorem Set_nonpositive_ttl (i : MemoryMap) (k v fallback : GoString) (t : Int)
    (ht : t ≤ 0) :
    (Set i k v t).spawned
      = i.spawned ++ [{ key := k, delay := time.secondsDuration t }] ∧
    Get (Set i k v t) k fallback = v ∧
    (-9223372036 ≤ t →
      time.secondsDuration t = t * 1000000000 ∧
      ∀ elapsed : Int, 0 ≤ elapsed →
        Expiry.ready { key := k, delay := time.secondsDuration t } elapsed = true ∧
        fireAfter (Set i k v t) i.spawned.length elapsed
          = fire (Set i k v t) i.spawned.length) ∧
    Exist (fire (Set i k v t) i.spawned.length) k = false ∧
    Get (fire (Set i k v t) i.spawned.length) k fallback = fallback ∧
    (Exist i k = false → SetIfNotExist i k v t = (Set i k v t, true)) := by
  refine ⟨rfl, ?_, ?_, ?_, ?_, ?_⟩
  · simp [Get, GetOrErr, Set, mapLookup_mapAssign]
  · intro hlo
    have hd := secondsDuration_of_small t hlo (by omega)
    refine ⟨hd, ?_⟩
    intro elapsed he
    have hr : Expiry.ready { key := k, delay := time.secondsDuration t } elapsed = true := by
      simp only [Expiry.ready, hd, decide_eq_true_eq]
      omega
    refine ⟨hr, ?_⟩
    unfold fireAfter
    rw [Set_spawned_last]
    simp only [hr, if_true]
  · rw [fire_Set_last]
    simp [Exist, mapLookup_mapDelete]
  · rw [fire_Set_last]
    simp [Get, GetOrErr, mapLookup_mapDelete]
  · intro h
    simp [SetIfNotExist, h, Set]

/-- Witness of the amended C1 at `ttlSeconds = 0` on the empty store. -/
theorem Set_nonpositive_ttl_witness :
    (0 : Int) ≤ 0 ∧
    Get (Set InMemory (ascii "k") (ascii "v") 0) (ascii "k") (ascii "f") = ascii "v" ∧
    Exist (fire (Set InMemory (ascii "k") (ascii "v") 0) InMemory.spawned.length)
      (ascii "k") = false :=
  ⟨by decide,
   (Set_nonpositive_ttl InMemory (ascii "k") (ascii "v") (ascii "f") 0 (by decide)).2.1,
   (Set_nonpositive_ttl InMemory (ascii "k") (ascii "v") (ascii "f") 0
      (by decide)).2.2.2.1⟩

/-- C8, refuted as stated: for `ttlSeconds = 9223372037`, a positive Go int,
the product `time.Duration(seconds) * time.Second` overflows int64; the
goroutine is started with the negative delay `-9223372036709551616` ns, not
`9223372037 * 10^9` ns, so it may run at once and remove the key. -/
theorem Set_large_ttl_counterexample :
    (0 : Int) < 9223372037 ∧ inInt64 9223372037 ∧
    (Set InMemory (ascii "k") (ascii "v") 9223372037).spawned
      = [{ key := ascii "k", delay := -9223372036709551616 }] ∧
    time.secondsDuration 9223372037 ≠ 9223372037 * 1000000000 ∧
    Expiry.ready { key := ascii "k", delay := time.secondsDuration 9223372037 } 0
      = true ∧
    Exist (fireAfter (Set InMemory (ascii "k") (ascii "v") 9223372037) 0 0) (ascii "k")
      = false := by
  refine ⟨by decide, by decide, by decide, by decide, by decide, by decide⟩

/-- C8, amended: for `0 < ttlSeconds <= 9223372036`, `Set` starts exactly one
expiration goroutine for the key, its delay is exactly `ttlSeconds * 10^9`
ns, it cannot run before that much time has elapsed, and when it runs the key
is absent afterwards whatever it held, with every other key unchanged. -/
theorem Set_positive_ttl (i : MemoryMap) (k v : GoString) (t : Int)
    (h0 : 0 < t) (h1 : t ≤ 9223372036) :
    (Set i k v t).spawned = i.spawned ++ [{ key := k, delay := t * 1000000000 }] ∧
    (∀ elapsed : Int, elapsed < t * 1000000000 →
      Expiry.ready { key := k, delay := t * 1000000000 } elapsed = false ∧
      fireAfter (Set i k v t) i.spawned.length elapsed = Set i k v t) ∧
    (∀ (j : MemoryMap) (n : Nat),
      j.spawned[n]? = some { key := k, delay := t * 1000000000 } →
      Exist (fire j n) k = false ∧
      (fire j n).spawned = j.spawned.eraseIdx n ∧
      ∀ k2 : GoString, k2 ≠ k →
        Exist (fire j n) k2 = Exist j k2 ∧ GetOrErr (fire j n) k2 = GetOrErr j k2) := by
  have hd := secondsDuration_of_small t (by omega) h1
  refine ⟨?_, ?_, ?_⟩
  · simp [Set, hd]
  · intro elapsed he
    have hr : Expiry.ready { key := k, delay := t * 1000000000 } elapsed = false := by
      simp only [Expiry.ready, decide_eq_false_iff_not]
      omega
    refine ⟨hr, ?_⟩
    unfold fireAfter
    rw [Set_spawned_last, hd]
    simp only [hr, Bool.false_eq_true, if_false]
  · intro j n hn
    rw [fire_of_spawned j n _ hn]
    refine ⟨?_, rfl, ?_⟩
    · simp [Exist, mapLookup_mapDelete]
    · intro k2 hk
      simp [Exist, GetOrErr, mapLookup_mapDelete, hk]

/-- Witness of the amended C8 at `ttlSeconds = 1` on the empty store. -/
theorem Set_positive_ttl_witness :
    (0 : Int) < 1 ∧ (1 : Int) ≤ 9223372036 ∧
    (Set InMemory (ascii "k") (ascii "v") 1).spawned
      = InMemory.spawned ++ [{ key := ascii "k", delay := 1 * 1000000000 }] :=
  ⟨by decide, by decide,
   (Set_positive_ttl InMemory (ascii "k") (ascii "v") 1 (by decide) (by decide)).1⟩

/-- C9, refuted as stated: after `Set(k, v1, 1)` and an overwriting
`Set(k, v2, 100)`, the firing of the first insertion's expiration removes the
newer entry while the newer entry's own expiration is still pending; likewise
when the key was re-inserted after `Remove` or after `Reset`. -/
theorem stale_expiry_counterexample :
    GetOrErr (Set (Set InMemory (ascii "k") (ascii "v1") 1) (ascii "k") (ascii "v2") 100)
        (ascii "k") = (ascii "v2", none) ∧
    Exist (fire (Set (Set InMemory (ascii "k") (ascii "v1") 1) (ascii "k") (ascii "v2") 100)
        0) (ascii "k") = false ∧
    (fire (Set (Set InMemory (ascii "k") (ascii "v1") 1) (ascii "k") (ascii "v2") 100)
        0).spawned = [{ key := ascii "k", delay := 100000000000 }] ∧
    Exist (fire (Set (Remove (Set InMemory (ascii "k") (ascii "v1") 1) (ascii "k")).1
        (ascii "k") (ascii "v2") 100) 0) (ascii "k") = false ∧
    Exist (fire (Set (Reset (Set InMemory (ascii "k") (ascii "v1") 1))
        (ascii "k") (ascii "v2") 100) 0) (ascii "k") = false := by
  refine ⟨by decide, by decide, by decide, by decide, by decide⟩

/-- C9, amended: an expiration goroutine is tied to the key. Whenever a
spawned goroutine for key `k` runs, `k` is absent afterwards, whichever
insertion put the current entry there, the other spawned goroutines stay
pending and other keys are unchanged. In particular the goroutine of an
earlier `Set` of `k` removes the entry of a later `Set` of `k`, also with a
`Remove` or a `Reset` in between. -/
theorem stale_expiry_removes (i : MemoryMap) (k v1 v2 : GoString) (t1 t2 : Int) :
    (∀ (j : MemoryMap) (n : Nat) (e : Expiry), j.spawned[n]? = some e →
      Exist (fire j n) e.key = false ∧
      (fire j n).spawned = j.spawned.eraseIdx n ∧
      ∀ k2 : GoString, k2 ≠ e.key → GetOrErr (fire j n) k2 = GetOrErr j k2) ∧
    Exist (fire (Set (Set i k v1 t1) k v2 t2) i.spawned.length) k = false ∧
    Exist (fire (Set (Remove (Set i k v1 t1) k).1 k v2 t2) i.spawned.length) k = false ∧
    Exist (fire (Set (Reset (Set i k v1 t1)) k v2 t2) i.spawned.length) k = false := by
  have key : ∀ (j : MemoryMap) (n : Nat) (e : Expiry), j.spawned[n]? = some e →
      Exist (fire j n) e.key = false ∧
      (fire j n).spawned = j.spawned.eraseIdx n ∧
      ∀ k2 : GoString, k2 ≠ e.key → GetOrErr (fire j n) k2 = GetOrErr j k2 := by
    intro j n e hn
    rw [fire_of_spawned j n e hn]
    refine ⟨?_, rfl, ?_⟩
    · simp [Exist, mapLookup_mapDelete]
    · intro k2 hk
      simp [GetOrErr, mapLookup_mapDelete, hk]
  have hsp : ∀ j : MemoryMap, j.spawned = (Set i k v1 t1).spawned →
      (Set j k v2 t2).spawned[i.spawned.length]?
        = some { key := k, delay := time.secondsDuration t1 } := by
    intro j hj
    simp only [Set, hj]
    rw [List.getElem?_append_left (by simp)]
    simp
  refine ⟨key, ?_, ?_, ?_⟩
  · exact (key (Set (Set i k v1 t1) k v2 t2) _ _ (hsp _ rfl)).1
  · exact (key (Set (Remove (Set i k v1 t1) k).1 k v2 t2) _ _ (hsp _ rfl)).1
  · exact (key (Set (Reset (Set i k v1 t1)) k v2 t2) _ _ (hsp _ rfl)).1

/-- Witness of the amended C9: in the store after two `Set`s of one key the
first spawned goroutine is pending, and its run leaves the key absent. -/
theorem stale_expiry_removes_witness :
    Exist (fire (Set (Set InMemory (ascii "k") (ascii "v1") 1) (ascii "k") (ascii "v2") 100)
        0) (ascii "k") = false :=
  ((stale_expiry_removes InMemory (ascii "k") (ascii "v1") (ascii "v2") 1 100).1
    (Set (Set InMemory (ascii "k") (ascii "v1") 1) (ascii "k") (ascii "v2") 100) 0
    { key := ascii "k", delay := 1000000000 } (by decide)).1

/-- C3: when the key holds a string that denotes the integer `n` with
`-2^63 <= n < 2^63 - 1` (its decimal string, for one), `Incr` returns
`(n + 1, nil)`, the key then holds the canonical decimal string of `n + 1`,
every other entry is unchanged and no expiration goroutine is added or
removed. -/
theorem Incr_spec (i : MemoryMap) (k s : GoString) (n : Int)
    (hs : mapLookup i.cached k = some s)
    (hd : s = strconv.canonicalDecimal n ∨ strconv.decimalValue s = some n)
    (hlo : -(2 ^ 63) ≤ n) (hhi : n < 2 ^ 63 - 1) :
    (Incr i k).2 = (n + 1, none) ∧
    GetOrErr (Incr i k).1 k = (strconv.canonicalDecimal (n + 1), none) ∧
    (∀ k2 : GoString, k2 ≠ k →
      Exist (Incr i k).1 k2 = Exist i k2 ∧ GetOrErr (Incr i k).1 k2 = GetOrErr i k2) ∧
    (Incr i k).1.spawned = i.spawned := by
  have hn : inInt64 n := ⟨hlo, by omega⟩
  have hn1 : inInt64 (n + 1) := ⟨by omega, by omega⟩
  have hdv : strconv.decimalValue s = some n := by
    rcases hd with hd | hd
    · rw [hd, ← strconv.FormatInt_eq_canonicalDecimal n hn]
      exact strconv.decimalValue_FormatInt n hn
    · exact hd
  have hA : strconv.Atoi (mapIndex i.cached k) = (n, none) := by
    rw [strconv.Atoi_eq_ParseInt, mapIndex, hs, Option.getD_some,
      strconv.ParseInt_of_decimalValue s n hdv, if_pos hn]
  have hw : wrap64 (n + 1) = n + 1 := wrap64_of_inInt64 _ hn1
  have hI : Incr i k
      = ({ i with cached := mapAssign i.cached k (strconv.canonicalDecimal (n + 1)) },
         n + 1, none) := by
    unfold Incr
    rw [hA]
    simp only [hw, strconv.Itoa, strconv.FormatInt_eq_canonicalDecimal (n + 1) hn1]
  rw [hI]
  refine ⟨rfl, ?_, ?_, rfl⟩
  · simp [GetOrErr, mapLookup_mapAssign]
  · intro k2 hk
    simp [Exist, GetOrErr, mapLookup_mapAssign, hk]

/-- Witness of C3: a key holding `"5"` yields `(6, nil)` and then holds `"6"`. -/
theorem Incr_spec_witness :
    (Incr (Set InMemory (ascii "k") (ascii "5") 60) (ascii "k")).2 = (5 + 1, none) ∧
    GetOrErr (Incr (Set InMemory (ascii "k") (ascii "5") 60) (ascii "k")).1 (ascii "k")
      = (strconv.canonicalDecimal (5 + 1), none) ∧
    strconv.canonicalDecimal (5 + 1) = ascii "6" :=
  ⟨(Incr_spec (Set InMemory (ascii "k") (ascii "5") 60) (ascii "k") (ascii "5") 5
      (by decide) (Or.inr (by decide)) (by decide) (by decide)).1,
   (Incr_spec (Set InMemory (ascii "k") (ascii "5") 60) (ascii "k") (ascii "5") 5
      (by decide) (Or.inr (by decide)) (by decide) (by decide)).2.1,
   by decide⟩

/-- C4: when the key is absent, or holds a string that does not denote an
integer of the `int` range, `Incr` returns `-1` and a non-nil error and
leaves the store exactly as it was. -/
theorem Incr_failure (i : MemoryMap) (k : GoString)
    (h : mapLookup i.cached k = none ∨
      ∃ s, mapLookup i.cached k = some s ∧
        ¬ ∃ n, strconv.decimalValue s = some n ∧ inInt64 n) :
    (Incr i k).1 = i ∧ (Incr i k).2.1 = -1 ∧ (Incr i k).2.2 ≠ none ∧
    Exist (Incr i k).1 k = Exist i k ∧ GetOrErr (Incr i k).1 k = GetOrErr i k := by
  have herr : (strconv.Atoi (mapIndex i.cached k)).2 ≠ none := by
    rw [strconv.Atoi_eq_ParseInt]
    intro hok
    rcases h with h | ⟨s, hs, hno⟩
    · rw [mapIndex, h] at hok
      revert hok
      decide
    · rw [mapIndex, hs, Option.getD_some] at hok
      exact hno ((strconv.ParseInt_ok_iff s).mp hok)
  have hI : Incr i k = (i, -1, (strconv.Atoi (mapIndex i.cached k)).2.map GoError.numError) := by
    unfold Incr
    cases hA : strconv.Atoi (mapIndex i.cached k) with
    | mk v e =>
      cases e with
      | none => rw [hA] at herr; exact absurd rfl herr
      | some e => rfl
  rw [hI]
  refine ⟨rfl, rfl, ?_, rfl, rfl⟩
  simpa using herr

/-- Witness of C4: an absent key and a key holding `"abc"`. -/
theorem Incr_failure_witness :
    (Incr InMemory (ascii "k")).1 = InMemory ∧
    (Incr InMemory (ascii "k")).2.1 = -1 ∧
    (Incr (Set InMemory (ascii "k") (ascii "abc") 60) (ascii "k")).1
      = Set InMemory (ascii "k") (ascii "abc") 60 :=
  ⟨(Incr_failure InMemory (ascii "k") (Or.inl (by decide))).1,
   (Incr_failure InMemory (ascii "k") (Or.inl (by decide))).2.1,
   (Incr_failure (Set InMemory (ascii "k") (ascii "abc") 60) (ascii "k")
      (Or.inr ⟨ascii "abc", by decide, by
        rintro ⟨n, hn, _⟩
        rw [show strconv.decimalValue (ascii "abc") = none by decide] at hn
        exact Option.noConfusion hn⟩)).1⟩

/-- C6: `GetInt64(k, f)` is `f` when the key is absent, `f` when the key holds
a string that does not denote an int64, and `n` when the key holds a string
that denotes the int64 `n`. It is a total function of the store and returns
no new store: it cannot fail and writes nothing. -/
theorem GetInt64_spec (i : MemoryMap) (k : GoString) (f : Int) (hf : inInt64 f) :
    (mapLookup i.cached k = none → GetInt64 i k f = f) ∧
    (∀ s, mapLookup i.cached k = some s →
      (¬ ∃ n, strconv.decimalValue s = some n ∧ inInt64 n) → GetInt64 i k f = f) ∧
    (∀ s n, mapLookup i.cached k = some s →
      strconv.decimalValue s = some n → inInt64 n → GetInt64 i k f = n) := by
  refine ⟨?_, ?_, ?_⟩
  · intro h
    simp [GetInt64, Get, GetOrErr, h, strconv.ParseInt_FormatInt f hf]
  · intro s hs hno
    have herr : (strconv.ParseInt s).2 ≠ none :=
      fun hok => hno ((strconv.ParseInt_ok_iff s).mp hok)
    simp only [GetInt64, Get, GetOrErr, hs]
    cases hP : strconv.ParseInt s with
    | mk v e =>
      cases e with
      | none => rw [hP] at herr; exact absurd rfl herr
      | some e => rfl
  · intro s n hs hd hn
    simp [GetInt64, Get, GetOrErr, hs, strconv.ParseInt_of_decimalValue s n hd, hn]

/-- Witness of C6 with fallback 42: absent key, `"abc"` and `"-17"`. -/
theorem GetInt64_spec_witness :
    GetInt64 InMemory (ascii "k") 42 = 42 ∧
    GetInt64 (Set InMemory (ascii "k") (ascii "abc") 60) (ascii "k") 42 = 42 ∧
    GetInt64 (Set InMemory (ascii "k") (ascii "-17") 60) (ascii "k") 42 = -17 :=
  ⟨(GetInt64_spec InMemory (ascii "k") 42 (by decide)).1 (by decide),
   (GetInt64_spec (Set InMemory (ascii "k") (ascii "abc") 60) (ascii "k") 42
      (by decide)).2.1 (ascii "abc") (by decide) (by
        rintro ⟨n, hn, _⟩
        rw [show strconv.decimalValue (ascii "abc") = none by decide] at hn
        exact Option.noConfusion hn),
   (GetInt64_spec (Set InMemory (ascii "k") (ascii "-17") 60) (ascii "k") 42
      (by decide)).2.2 (ascii "-17") (-17) (by decide) (by decide) (by decide)⟩

/-- C11: `Remove(k)` returns nil, leaves `k` absent and every other key with
its presence and value; on an absent key it leaves the store unchanged, so a
second `Remove(k)` changes nothing. -/
theorem Remove_spec (i : MemoryMap) (k : GoString) :
    (Remove i k).2 = none ∧
    Exist (Remove i k).1 k = false ∧
    (∀ k2 : GoString, k2 ≠ k →
      Exist (Remove i k).1 k2 = Exist i k2 ∧ GetOrErr (Remove i k).1 k2 = GetOrErr i k2) ∧
    (Exist i k = false → (Remove i k).1 = i) ∧
    Remove (Remove i k).1 k = Remove i k := by
  have habs : mapLookup (mapDelete i.cached k) k = none := by
    simp [mapLookup_mapDelete]
  refine ⟨rfl, ?_, ?_, ?_, ?_⟩
  · simp [Exist, Remove, habs]
  · intro k2 hk
    simp [Exist, GetOrErr, Remove, mapLookup_mapDelete, hk]
  · intro h
    have hnone : mapLookup i.cached k = none := by
      unfold Exist at h
      cases hl : mapLookup i.cached k with
      | none => rfl
      | some v => simp [hl] at h
    simp [Remove, mapDelete_of_absent _ _ hnone]
  · simp [Remove, mapDelete_of_absent _ _ habs]

/-- Witness of C11: removing `user:1` leaves `order:1`, and removing a key that
is not there leaves the store as it was. -/
theorem Remove_spec_witness :
    GetOrErr (Remove usersAndOrders (ascii "user:1")).1 (ascii "order:1")
        = GetOrErr usersAndOrders (ascii "order:1") ∧
    (Remove usersAndOrders (ascii "nobody")).1 = usersAndOrders :=
  ⟨((Remove_spec usersAndOrders (ascii "user:1")).2.2.1 (ascii "order:1")
      (by decide)).2,
   (Remove_spec usersAndOrders (ascii "nobody")).2.2.2.1 (by decide)⟩

/-- C12: on the store of `InMemory()` every key is absent: `Exist` is false and
`GetOrErr` returns the empty string with the not-found error; and in any store
`GetOrErr` fails exactly when `Exist` is false. -/
theorem GetOrErr_fails_iff_absent (i : MemoryMap) (k : GoString) :
    Exist InMemory k = false ∧
    GetOrErr InMemory k = ([], some GoError.dataNotFound) ∧
    ((GetOrErr i k).2 ≠ none ↔ Exist i k = false) ∧
    ((GetOrErr i k).2 ≠ none → GetOrErr i k = ([], some GoError.dataNotFound)) := by
  refine ⟨rfl, rfl, ?_, ?_⟩
  · unfold GetOrErr Exist
    cases mapLookup i.cached k <;> simp
  · unfold GetOrErr
    cases mapLookup i.cached k <;> simp

/-- Witness of C12: a key that `usersAndOrders` does not hold. -/
theorem GetOrErr_fails_iff_absent_witness :
    (GetOrErr usersAndOrders (ascii "nobody")).2 ≠ none :=
  (GetOrErr_fails_iff_absent usersAndOrders (ascii "nobody")).2.2.1.mpr (by decide)

/-- C13: `Get(k, f)` is the value of `GetOrErr(k)` when that succeeds and `f`
when it fails; a present key holding the empty string yields the empty
string, not the fallback. -/
theorem Get_spec (i : MemoryMap) (k f : GoString) (t : Int) :
    ((GetOrErr i k).2 = none → Get i k f = (GetOrErr i k).1) ∧
    ((GetOrErr i k).2 ≠ none → Get i k f = f) ∧
    Get (Set i k [] t) k f = [] := by
  refine ⟨?_, ?_, ?_⟩
  · unfold Get GetOrErr
    cases mapLookup i.cached k <;> simp
  · unfold Get GetOrErr
    cases mapLookup i.cached k <;> simp
  · simp [Get, GetOrErr, Set, mapLookup_mapAssign]

/-- Witness of C13: a present key, and an absent key with fallback `zz`. -/
theorem Get_spec_witness :
    Get usersAndOrders (ascii "user:1") (ascii "zz")
        = (GetOrErr usersAndOrders (ascii "user:1")).1 ∧
    Get usersAndOrders (ascii "nobody") (ascii "zz") = ascii "zz" :=
  ⟨(Get_spec usersAndOrders (ascii "user:1") (ascii "zz") 0).1 (by decide),
   (Get_spec usersAndOrders (ascii "nobody") (ascii "zz") 0).2.1 (by decide)⟩

/-- What `GetMarshal` does right after a successful `SetMarshal` of the same
key: it decodes exactly the text that was encoded. -/
theorem GetMarshal_SetMarshal {α : Type} (marshal : α → GoString × Option GoError)
    (unmarshal : GoString → α → α × Option GoError)
    (i : MemoryMap) (k : GoString) (x y : α) (t : Int) (s : GoString)
    (hs : marshal x = (s, none)) :
    SetMarshal marshal i k x t = (Set i k s t, none) ∧
    GetMarshal unmarshal (SetMarshal marshal i k x t).1 k y = unmarshal s y := by
  have h1 : SetMarshal marshal i k x t = (Set i k s t, none) := by
    simp [SetMarshal, hs]
  refine ⟨h1, ?_⟩
  rw [h1]
  simp [GetMarshal, GetOrErr, Set, mapLookup_mapAssign]

end cache

/-! ## Facts about encoding/json on strings -/

namespace json

/-- The bytes of `htmlSafeSet` are ASCII bytes from the space on, and neither
the quote nor the backslash. -/
theorem htmlSafeSet_bounds (c : UInt8) (h : htmlSafeSet c.toNat = true) :
    32 ≤ c.toNat ∧ c.toNat < 128 ∧ c.toNat ≠ 34 ∧ c.toNat ≠ 92 := by
  unfold htmlSafeSet at h
  simp only [decide_eq_true_eq] at h
  omega

theorem appendStringLoop_safe (v : GoString) (fuel : Nat) (hf : v.length ≤ fuel)
    (hv : ∀ c ∈ v, htmlSafeSet c.toNat = true) :
    appendStringLoop fuel v = v := by
  induction v generalizing fuel with
  | nil => cases fuel <;> rfl
  | cons c rest ih =>
    obtain ⟨f, rfl⟩ : ∃ f, fuel = f + 1 := ⟨fuel - 1, by simp only [List.length_cons] at hf; omega⟩
    have hc := hv c (List.mem_cons_self _ _)
    have hb := htmlSafeSet_bounds c hc
    rw [appendStringLoop]
    simp only [hb.2.1, if_true, hc]
    rw [ih f (by simp only [List.length_cons] at hf; omega)
      (fun x hx => hv x (List.mem_cons_of_mem _ hx))]

theorem checkValidLoop_safe (v rest : GoString)
    (hv : ∀ c ∈ v, htmlSafeSet c.toNat = true) :
    checkValidLoop inTopString (v ++ rest) = checkValidLoop inTopString rest := by
  induction v with
  | nil => rfl
  | cons c v ih =>
    have hb := htmlSafeSet_bounds c (hv c (List.mem_cons_self _ _))
    have hstep : inTopString.doStep c = (inTopString, false) := by
      simp only [scanner.doStep, inTopString, stateInString, hb.2.2.1, hb.2.2.2, if_false]
      rw [if_neg (by omega)]
    rw [List.cons_append, checkValidLoop]
    simp only [hstep]
    exact ih (fun x hx => hv x (List.mem_cons_of_mem _ hx))

theorem checkValid_quoted_safe (v : GoString)
    (hv : ∀ c ∈ v, htmlSafeSet c.toNat = true) :
    checkValid (34 :: (v ++ [34])) = true := by
  unfold checkValid
  have h0 : scanner.reset.doStep 34 = (inTopString, false) := by decide
  rw [checkValidLoop]
  simp only [h0]
  rw [checkValidLoop_safe v [34] hv]
  decide

theorem rescanString_safe (v rest : GoString)
    (hv : ∀ c ∈ v, htmlSafeSet c.toNat = true) :
    rescanString (v ++ 34 :: rest) = v := by
  induction v with
  | nil =>
    rw [List.nil_append, rescanString.eq_def]
    simp
  | cons c v ih =>
    have hb := htmlSafeSet_bounds c (hv c (List.mem_cons_self _ _))
    have h34 : ¬ c = 34 := fun h => hb.2.2.1 (by rw [h]; rfl)
    have h92 : ¬ c = 92 := fun h => hb.2.2.2 (by rw [h]; rfl)
    rw [List.cons_append, rescanString.eq_def]
    simp only [h34, h92, if_false]
    rw [ih (fun x hx => hv x (List.mem_cons_of_mem _ hx))]

theorem unquotePlain_safe (v : GoString) (fuel : Nat) (hf : v.length ≤ fuel)
    (hv : ∀ c ∈ v, htmlSafeSet c.toNat = true) :
    unquotePlain fuel v = v.length := by
  induction v generalizing fuel with
  | nil => cases fuel <;> rfl
  | cons c rest ih =>
    obtain ⟨f, rfl⟩ : ∃ f, fuel = f + 1 := ⟨fuel - 1, by simp only [List.length_cons] at hf; omega⟩
    have hb := htmlSafeSet_bounds c (hv c (List.mem_cons_self _ _))
    rw [unquotePlain]
    simp only
    rw [if_neg (by omega), if_pos hb.2.1,
      ih f (by simp only [List.length_cons] at hf; omega)
        (fun x hx => hv x (List.mem_cons_of_mem _ hx))]
    simp only [List.length_cons]
    omega

theorem unquoteBytes_quoted_safe (v : GoString)
    (hv : ∀ c ∈ v, htmlSafeSet c.toNat = true) :
    unquoteBytes (34 :: (v ++ [34])) = some v := by
  unfold unquoteBytes
  have hlen : ¬ ((34 :: (v ++ [34])).length < 2 ∨ (34 :: (v ++ [34])).head? ≠ some 34 ∨
      (34 :: (v ++ [34])).getLast? ≠ some 34) := by
    have hlast : (34 :: (v ++ [34])).getLast? = some 34 := by
      rw [← List.cons_append]
      exact List.getLast?_concat _
    simp [hlast]
  rw [if_neg hlen]
  have hbody : ((34 :: (v ++ [34])).drop 1).dropLast = v := by simp
  simp only [hbody, unquotePlain_safe v v.length (le_refl _) hv, if_true]

/-- Round trip of `json.Marshal` and `json.Unmarshal` on a string of bytes
that `appendString` copies as they are. -/
theorem UnmarshalString_MarshalString_safe (v y : GoString)
    (hv : ∀ c ∈ v, htmlSafeSet c.toNat = true) :
    UnmarshalString (MarshalString v) y = (v, none) := by
  unfold MarshalString appendString
  rw [appendStringLoop_safe v v.length (le_refl _) hv]
  unfold UnmarshalString
  rw [checkValid_quoted_safe v hv]
  have hdw : (34 :: (v ++ [34])).dropWhile (fun c => isSpace c.toNat) = 34 :: (v ++ [34]) := by
    rw [List.dropWhile_cons_of_neg (by decide)]
  have h34 : (34 : UInt8).toNat = 34 := rfl
  simp [hdw, h34, rescanString_safe v [] hv, unquoteBytes_quoted_safe v hv, UInt8.size]

end json

namespace cache

/-- C14, refuted as stated: the string of the one byte `0xFF` serializes
successfully, to the eight bytes `"`, `\`, `u`, `f`, `f`, `f`, `d`, `"`;
`SetMarshal` returns nil, the `GetMarshal` right after it returns nil, and
the target then holds the three bytes `0xEF 0xBF 0xBD` of U+FFFD, not the
byte that was stored. -/
theorem SetMarshal_GetMarshal_counterexample :
    marshalString [0xFF] = ([34, 92, 117, 102, 102, 102, 100, 34], none) ∧
    (SetMarshal marshalString InMemory (ascii "k") [0xFF] 60).2 = none ∧
    GetMarshal unmarshalString
        (SetMarshal marshalString InMemory (ascii "k") [0xFF] 60).1 (ascii "k") []
      = ([0xEF, 0xBF, 0xBD], none) ∧
    GetMarshal unmarshalString
        (SetMarshal marshalString InMemory (ascii "k") [0xFF] 60).1 (ascii "k") []
      ≠ ([0xFF], none) := by
  refine ⟨by decide, by decide, by decide, by decide⟩

/-- C14, amended: when `x` serializes successfully, to the text `s`,
`SetMarshal(k, x, t)` returns nil and stores `s`, and a `GetMarshal(k, &y)`
right after it returns what `json.Unmarshal(s, &y)` returns: nil with `x` in
the target exactly when decoding `s` into `y` gives `x`. It does for every
string of ASCII bytes from the space on other than `"`, `&`, `<`, `>`, `\`. -/
theorem GetMarshal_after_SetMarshal {α : Type} (marshal : α → GoString × Option GoError)
    (unmarshal : GoString → α → α × Option GoError)
    (i : MemoryMap) (k : GoString) (x y : α) (t : Int) (s : GoString)
    (hs : marshal x = (s, none)) :
    SetMarshal marshal i k x t = (Set i k s t, none) ∧
    GetMarshal unmarshal (SetMarshal marshal i k x t).1 k y = unmarshal s y ∧
    (GetMarshal unmarshal (SetMarshal marshal i k x t).1 k y = (x, none)
      ↔ unmarshal s y = (x, none)) ∧
    (∀ v y0 : GoString, (∀ c ∈ v, json.htmlSafeSet c.toNat = true) →
      (SetMarshal marshalString i k v t).2 = none ∧
      GetMarshal unmarshalString (SetMarshal marshalString i k v t).1 k y0
        = (v, none)) := by
  obtain ⟨h1, h2⟩ := GetMarshal_SetMarshal marshal unmarshal i k x y t s hs
  refine ⟨h1, h2, by rw [h2], ?_⟩
  intro v y0 hv
  obtain ⟨h3, h4⟩ :=
    GetMarshal_SetMarshal marshalString unmarshalString i k v y0 t _ rfl
  refine ⟨by rw [h3], ?_⟩
  rw [h4]
  simp only [unmarshalString, json.UnmarshalString_MarshalString_safe v y0 hv,
    Option.map_none']

/-- Witness of the amended C14: the string `hi`, read back into a target
holding `old`. -/
theorem GetMarshal_after_SetMarshal_witness :
    marshalString (ascii "hi") = (ascii "\"hi\"", none) ∧
    GetMarshal unmarshalString (SetMarshal marshalString InMemory (ascii "k")
        (ascii "hi") 60).1 (ascii "k") (ascii "old")
      = unmarshalString (ascii "\"hi\"") (ascii "old") ∧
    unmarshalString (ascii "\"hi\"") (ascii "old") = (ascii "hi", none) :=
  ⟨by decide,
   (GetMarshal_after_SetMarshal marshalString unmarshalString InMemory (ascii "k")
      (ascii "hi") (ascii "old") 60 (ascii "\"hi\"") (by decide)).2.1,
   by decide⟩

/-- C15: when serializing `x` fails, `SetMarshal` returns that error and
leaves the store as it was; when it succeeds with text `s`, `SetMarshal`
returns nil and the store is the one `Set(k, s, t)` produces. -/
theorem SetMarshal_spec {α : Type} (marshal : α → GoString × Option GoError)
    (i : MemoryMap) (k : GoString) (x : α) (t : Int) :
    (∀ (s : GoString) (e : GoError), marshal x = (s, some e) →
      SetMarshal marshal i k x t = (i, some e)) ∧
    (∀ s : GoString, marshal x = (s, none) →
      SetMarshal marshal i k x t = (Set i k s t, none)) := by
  refine ⟨?_, ?_⟩
  · intro s e h
    simp [SetMarshal, h]
  · intro s h
    simp [SetMarshal, h]

/-- Witness of C15: a channel cannot be serialized, a bool can. -/
theorem SetMarshal_spec_witness :
    SetMarshal marshalChan usersAndOrders (ascii "k") () 60
      = (usersAndOrders,
         some (GoError.jsonError (ascii "json: unsupported type: chan int"))) ∧
    SetMarshal marshalBool usersAndOrders (ascii "k") false 60
      = (Set usersAndOrders (ascii "k") (ascii "false") 60, none) :=
  ⟨(SetMarshal_spec marshalChan usersAndOrders (ascii "k") () 60).1 [] _ rfl,
   (SetMarshal_spec marshalBool usersAndOrders (ascii "k") false 60).2 _ rfl⟩

/-! ### `Incr` as a counter -/

theorem wrap64_inInt64 (x : Int) : inInt64 (wrap64 x) := by
  unfold inInt64 wrap64
  omega

/-- `Incr` when `Atoi` accepts the stored text. -/
theorem Incr_of_Atoi_ok (i : MemoryMap) (k : GoString) (v : Int)
    (h : strconv.Atoi (mapIndex i.cached k) = (v, none)) :
    Incr i k
      = ({ i with cached := mapAssign i.cached k (strconv.canonicalDecimal (wrap64 (v + 1))) },
         wrap64 (v + 1), none) := by
  unfold Incr
  rw [h]
  simp only [strconv.Itoa, strconv.FormatInt_eq_canonicalDecimal _ (wrap64_inInt64 (v + 1))]

/-- `Incr` on a key that holds a text denoting the int64 `n`. -/
theorem Incr_of_decimalValue (i : MemoryMap) (k s : GoString) (n : Int)
    (hs : mapLookup i.cached k = some s) (hd : strconv.decimalValue s = some n)
    (hn : inInt64 n) :
    Incr i k
      = ({ i with cached := mapAssign i.cached k (strconv.canonicalDecimal (wrap64 (n + 1))) },
         wrap64 (n + 1), none) := by
  apply Incr_of_Atoi_ok
  rw [strconv.Atoi_eq_ParseInt, mapIndex, hs, Option.getD_some,
    strconv.ParseInt_of_decimalValue s n hd, if_pos hn]

/-- A successful `Incr` read an int64 `v` and returned `v + 1` in int64. -/
theorem Incr_ok_inv (i : MemoryMap) (k : GoString) (r : Int)
    (h : (Incr i k).2 = (r, none)) :
    ∃ v : Int, strconv.Atoi (mapIndex i.cached k) = (v, none) ∧ r = wrap64 (v + 1) := by
  cases hA : strconv.Atoi (mapIndex i.cached k) with
  | mk v e =>
    cases e with
    | some e =>
      unfold Incr at h
      rw [hA] at h
      simp at h
    | none =>
      rw [Incr_of_Atoi_ok i k v hA] at h
      simp only [Prod.mk.injEq, and_true] at h
      exact ⟨v, rfl, h.symm⟩

theorem decimalValue_canonicalDecimal (n : Int) (hn : inInt64 n) :
    strconv.decimalValue (strconv.canonicalDecimal n) = some n := by
  rw [← strconv.FormatInt_eq_canonicalDecimal n hn]
  exact strconv.decimalValue_FormatInt n hn

/-- The counter loop: from a key holding the numeral of `m`, `n` calls of
`Incr` return `m + 1, ..., m + n` and leave the numeral of `m + n`. -/
theorem IncrTimes_from (n : Nat) (i : MemoryMap) (k : GoString) (m : Int)
    (h0 : mapLookup i.cached k = some (strconv.canonicalDecimal m))
    (hm : 0 ≤ m) (hmn : m + n < 2 ^ 63) :
    (IncrTimes n i k).2
      = (List.range n).map (fun j => (m + ((j : Nat) : Int) + 1, (none : Option GoError))) ∧
    mapLookup (IncrTimes n i k).1.cached k = some (strconv.canonicalDecimal (m + n)) ∧
    (IncrTimes n i k).1.spawned = i.spawned := by
  induction n generalizing i m with
  | zero => simpa [IncrTimes] using h0
  | succ n ih =>
    have hin : inInt64 m := ⟨by omega, by omega⟩
    have hw : wrap64 (m + 1) = m + 1 := wrap64_of_inInt64 _ ⟨by omega, by omega⟩
    have hI := Incr_of_decimalValue i k _ m h0 (decimalValue_canonicalDecimal m hin) hin
    rw [hw] at hI
    have hstep := ih
      { i with cached := mapAssign i.cached k (strconv.canonicalDecimal (m + 1)) } (m + 1)
      (by simp [mapLookup_mapAssign]) (by omega) (by push_cast at hmn ⊢; omega)
    obtain ⟨h1, h2, h3⟩ := hstep
    simp only [IncrTimes, hI]
    refine ⟨?_, ?_, h3⟩
    · rw [h1, List.range_succ_eq_map]
      simp only [List.map_cons, List.map_map, Nat.cast_zero, add_zero]
      congr 1
      apply List.map_congr_left
      intro j _
      simp only [Function.comp, Nat.succ_eq_add_one, Nat.cast_add, Nat.cast_one]
      congr 1
      omega
    · rw [h2]
      congr 2
      push_cast
      omega

/-- C17: no lost updates. From a store where the key holds `"0"`, `n` calls of
`Incr` one after another, `n < 2^63`, return `(1, nil), ..., (n, nil)` in that
order and leave the decimal string of `n` in the key; for `n = 100` that
string is `"100"`. -/
theorem IncrTimes_no_lost_update (n : Nat) (i : MemoryMap) (k : GoString)
    (h0 : mapLookup i.cached k = some (ascii "0")) (hn : (n : Int) < 2 ^ 63) :
    (IncrTimes n i k).2
      = (List.range n).map (fun j => (((j : Nat) : Int) + 1, (none : Option GoError))) ∧
    GetOrErr (IncrTimes n i k).1 k = (strconv.canonicalDecimal n, none) ∧
    strconv.canonicalDecimal 100 = ascii "100" := by
  have hz : ascii "0" = strconv.canonicalDecimal 0 := by decide
  rw [hz] at h0
  obtain ⟨h1, h2, _⟩ := IncrTimes_from n i k 0 h0 (le_refl 0) (by omega)
  refine ⟨?_, ?_, by decide⟩
  · rw [h1]
    apply List.map_congr_left
    intro j _
    simp
  · simp only [GetOrErr, h2, zero_add]

/-- Witness of C17: three calls on a key holding `"0"`. -/
theorem IncrTimes_no_lost_update_witness :
    (IncrTimes 3 (Set InMemory (ascii "k") (ascii "0") 60) (ascii "k")).2
      = (List.range 3).map (fun j => (((j : Nat) : Int) + 1, (none : Option GoError))) ∧
    GetOrErr (IncrTimes 3 (Set InMemory (ascii "k") (ascii "0") 60) (ascii "k")).1
      (ascii "k") = (strconv.canonicalDecimal (3 : Nat), none) :=
  ⟨(IncrTimes_no_lost_update 3 (Set InMemory (ascii "k") (ascii "0") 60) (ascii "k")
      (by decide) (by decide)).1,
   (IncrTimes_no_lost_update 3 (Set InMemory (ascii "k") (ascii "0") 60) (ascii "k")
      (by decide) (by decide)).2.1⟩

/-- C18, refuted as stated: on a key holding `"9223372036854775807"`, the
largest int64, `Incr` succeeds, returns `-9223372036854775808` and stores
that numeral: the addition wraps around and the new value is smaller. -/
theorem Incr_wraps_at_max_counterexample :
    strconv.decimalValue (ascii "9223372036854775807") = some (2 ^ 63 - 1) ∧
    (Incr (Set InMemory (ascii "k") (ascii "9223372036854775807") 60) (ascii "k")).2
      = (-9223372036854775808, none) ∧
    GetOrErr (Incr (Set InMemory (ascii "k") (ascii "9223372036854775807") 60)
        (ascii "k")).1 (ascii "k")
      = (ascii "-9223372036854775808", none) ∧
    ¬ ((2 : Int) ^ 63 - 1
        < (Incr (Set InMemory (ascii "k") (ascii "9223372036854775807") 60)
            (ascii "k")).2.1) := by
  refine ⟨by decide, by decide, by decide, by decide⟩

/-- C18, amended: on a key holding a string that denotes an int64 `n`, `Incr`
succeeds and returns `n + 1` reduced to int64. Below the largest int64 that
is the integer `n + 1`, greater than `n`; at `n = 2^63 - 1` it is `-2^63`,
and that is the numeral stored. -/
theorem Incr_adds_one_in_int64 (i : MemoryMap) (k s : GoString) (n : Int)
    (hs : mapLookup i.cached k = some s) (hd : strconv.decimalValue s = some n)
    (hn : inInt64 n) :
    (Incr i k).2 = (wrap64 (n + 1), none) ∧
    (n < 2 ^ 63 - 1 → (Incr i k).2.1 = n + 1 ∧ n < (Incr i k).2.1) ∧
    (n = 2 ^ 63 - 1 →
      (Incr i k).2.1 = -(2 ^ 63) ∧
      GetOrErr (Incr i k).1 k = (strconv.canonicalDecimal (-(2 ^ 63)), none)) := by
  have hI := Incr_of_decimalValue i k s n hs hd hn
  rw [hI]
  unfold inInt64 at hn
  refine ⟨rfl, ?_, ?_⟩
  · intro hlt
    have hw : wrap64 (n + 1) = n + 1 := wrap64_of_inInt64 _ ⟨by omega, by omega⟩
    rw [hw]
    refine ⟨rfl, ?_⟩
    show n < n + 1
    omega
  · intro hmax
    have hw : wrap64 (n + 1) = -(2 ^ 63) := by
      unfold wrap64
      omega
    simp [hw, GetOrErr, mapLookup_mapAssign]

/-- Witness of the amended C18: a key holding `"41"`. -/
theorem Incr_adds_one_in_int64_witness :
    (Incr (Set InMemory (ascii "k") (ascii "41") 60) (ascii "k")).2.1 = 41 + 1 ∧
    (41 : Int) < (Incr (Set InMemory (ascii "k") (ascii "41") 60) (ascii "k")).2.1 :=
  (Incr_adds_one_in_int64 (Set InMemory (ascii "k") (ascii "41") 60) (ascii "k")
    (ascii "41") 41 (by decide) (by decide) (by decide)).2.1 (by decide)

/-- C19: when `Incr(k)` succeeds and returns `r`, the key holds the canonical
decimal string of `r`; a `GetInt64(k, f)` right after returns `r` for every
fallback and a second `Incr(k)` succeeds too. So it is for the texts `"+5"`
and `"007"`. -/
theorem Incr_leaves_canonical (i : MemoryMap) (k : GoString) (r : Int)
    (h : (Incr i k).2 = (r, none)) :
    GetOrErr (Incr i k).1 k = (strconv.canonicalDecimal r, none) ∧
    (∀ f : Int, GetInt64 (Incr i k).1 k f = r) ∧
    (Incr (Incr i k).1 k).2.2 = none ∧
    (Incr (Set i k (ascii "+5") 60) k).2 = (6, none) ∧
    GetOrErr (Incr (Set i k (ascii "+5") 60) k).1 k = (ascii "6", none) ∧
    (Incr (Set i k (ascii "007") 60) k).2 = (8, none) ∧
    GetOrErr (Incr (Set i k (ascii "007") 60) k).1 k = (ascii "8", none) := by
  obtain ⟨v, hA, hr⟩ := Incr_ok_inv i k r h
  have hrin : inInt64 r := by rw [hr]; exact wrap64_inInt64 _
  have hI := Incr_of_Atoi_ok i k v hA
  rw [← hr] at hI
  have hlook : mapLookup (Incr i k).1.cached k = some (strconv.canonicalDecimal r) := by
    rw [hI]
    simp [mapLookup_mapAssign]
  have hex : ∀ (txt : GoString) (n : Int), strconv.decimalValue txt = some n →
      inInt64 n → wrap64 (n + 1) = n + 1 →
      (Incr (Set i k txt 60) k).2 = (n + 1, none) ∧
      GetOrErr (Incr (Set i k txt 60) k).1 k = (strconv.canonicalDecimal (n + 1), none) := by
    intro txt n hd hn hw
    have := Incr_of_decimalValue (Set i k txt 60) k txt n
      (by simp [Set, mapLookup_mapAssign]) hd hn
    rw [this, hw]
    simp [GetOrErr, mapLookup_mapAssign]
  have h5 := hex (ascii "+5") 5 (by decide) (by decide) (by decide)
  have h7 := hex (ascii "007") 7 (by decide) (by decide) (by decide)
  have hc6 : strconv.canonicalDecimal (5 + 1) = ascii "6" := by decide
  have hc8 : strconv.canonicalDecimal (7 + 1) = ascii "8" := by decide
  refine ⟨?_, ?_, ?_, h5.1, ?_, h7.1, ?_⟩
  · simp only [GetOrErr, hlook]
  · intro f
    simp only [GetInt64, Get, GetOrErr, hlook]
    rw [strconv.ParseInt_of_decimalValue _ r (decimalValue_canonicalDecimal r hrin),
      if_pos hrin]
  · rw [Incr_of_decimalValue (Incr i k).1 k _ r hlook
      (decimalValue_canonicalDecimal r hrin) hrin]
  · rw [h5.2, hc6]
  · rw [h7.2, hc8]

/-- Witness of C19: a key holding `"+5"`. -/
theorem Incr_leaves_canonical_witness :
    GetOrErr (Incr (Set InMemory (ascii "k") (ascii "+5") 60) (ascii "k")).1 (ascii "k")
      = (strconv.canonicalDecimal 6, none) ∧
    (Incr (Incr (Set InMemory (ascii "k") (ascii "+5") 60) (ascii "k")).1
      (ascii "k")).2.2 = none :=
  ⟨(Incr_leaves_canonical (Set InMemory (ascii "k") (ascii "+5") 60) (ascii "k") 6
      (by decide)).1,
   (Incr_leaves_canonical (Set InMemory (ascii "k") (ascii "+5") 60) (ascii "k") 6
      (by decide)).2.2.1⟩

/-! ### The guard -/

theorem guardedFrom_held_accesses (ks : List GoString) (pre : GoString)
    (rest : List Step) :
    guardedFrom true
        (ks.flatMap (fun k => if strings.HasPrefix k pre then [Step.Access] else []) ++ rest)
      = guardedFrom true rest := by
  induction ks with
  | nil => rfl
  | cons k ks ih =>
    by_cases h : strings.HasPrefix k pre = true
    · simp only [List.flatMap_cons, h, if_true, List.append_assoc, List.singleton_append,
        guardedFrom, Bool.true_and]
      exact ih
    · simp only [List.flatMap_cons, h, if_false, List.nil_append]
      exact ih

/-- C16, on the code: `Set`, `Remove` (and so the expiration goroutine),
`RemovePrefix`, `SetIfNotExist` and `Incr` access the container only between
`Lock` and `Unlock`; `Reset` assigns the container without taking the guard. -/
theorem Reset_not_guarded :
    guarded ResetSteps = false ∧
    guarded SetSteps = true ∧
    guarded RemoveSteps = true ∧
    (∀ (i : MemoryMap) (pre : GoString), guarded (RemovePrefixSteps i pre) = true) ∧
    (∀ (i : MemoryMap) (key : GoString), guarded (SetIfNotExistSteps i key) = true) ∧
    (∀ (i : MemoryMap) (key : GoString), guarded (IncrSteps i key) = true) := by
  refine ⟨rfl, rfl, rfl, ?_, ?_, ?_⟩
  · intro i pre
    unfold guarded RemovePrefixSteps
    simp only [guardedFrom, Bool.true_and]
    rw [guardedFrom_held_accesses]
    rfl
  · intro i key
    unfold guarded SetIfNotExistSteps
    by_cases h : Exist i key = true
    · rw [if_pos h]
      rfl
    · rw [if_neg h]
      rfl
  · intro i key
    unfold guarded IncrSteps
    cases hA : strconv.Atoi (mapIndex i.cached key) with
    | mk v e =>
      cases e with
      | none => rfl
      | some e => rfl

end cache

/-! ## Facts about the neuron -/

namespace go_nnet

theorem length_setLoop {F : Type} (f : Nat → F) (idx : List Nat) (w : List F) :
    (idx.foldl (fun w i => w.set i (f i)) w).length = w.length := by
  induction idx generalizing w with
  | nil => rfl
  | cons i idx ih => rw [List.foldl_cons, ih, List.length_set]

theorem InitializeWeights_length {F : Type} (ops : Float64Ops F) (norm : Nat → F)
    (n : Neuron F) :
    (InitializeWeights ops norm n).Weights.length = n.Weights.length := by
  unfold InitializeWeights
  exact length_setLoop (fun i => ops.mul (norm i) (ops.invSqrt n.nWeights)) _ _

/-- The loop of `Process` does not panic when the weights reach as far as the
input does. -/
theorem processLoop_isSome {F : Type} (ops : Float64Ops F) (weights input : List F)
    (i : Nat) (sum : F) (h : i + input.length ≤ weights.length) :
    (processLoop ops weights i input sum).isSome = true := by
  induction input generalizing i sum with
  | nil => rfl
  | cons val rest ih =>
    simp only [List.length_cons] at h
    have hi : i < weights.length := by omega
    rw [processLoop, List.getElem?_eq_getElem hi]
    exact ih (i + 1) _ (by omega)

/-- `Process` does not panic on a neuron with one weight more than inputs. -/
theorem Process_isSome {F : Type} (ops : Float64Ops F) (m : Neuron F) (input : List F)
    (h : m.Weights.length = input.length + 1) :
    (Process ops m input).isSome = true := by
  unfold Process
  have hloop := processLoop_isSome ops m.Weights input 0 ops.zero (by omega)
  obtain ⟨sum, hsum⟩ := Option.isSome_iff_exists.mp hloop
  rw [hsum]
  simp only [h, Nat.add_one_ne_zero, if_false, Nat.add_sub_cancel]
  rw [List.getElem?_eq_getElem (by omega)]
  rfl

/-- C20, refuted as stated: on linux/amd64, for `nInputs = 2^45` the block of
`8 * (2^45 + 1)` bytes exceeds `maxAlloc` and `make` panics with
`makeslice: len out of range`; for `nInputs = 2^63 - 1`, `nInputs + 1` wraps to
`-2^63` and `make` panics as well. In both cases `Initialize` does not
return, so it leaves no neuron with `nInputs + 1` weights. -/
theorem Initialize_large_counterexample :
    (0 : Int) ≤ 2 ^ 45 ∧ inInt64 (2 ^ 45) ∧
    (Initialize linuxAmd64 intOps (fun _ => 1) zeroNeuron (2 ^ 45) (fun x => x)).isSome
      = false ∧
    (0 : Int) ≤ 2 ^ 63 - 1 ∧ inInt64 (2 ^ 63 - 1) ∧
    wrap64 ((2 ^ 63 - 1) + 1) = -(2 ^ 63) ∧
    (Initialize linuxAmd64 intOps (fun _ => 1) zeroNeuron (2 ^ 63 - 1)
      (fun x => x)).isSome = false := by
  refine ⟨by decide, by decide, by decide, by decide, by decide, by decide, by decide⟩

/-- C20, amended: for `nInputs >= 0` with `8 * (nInputs + 1)` bytes within
`maxAlloc`, on a heap that can supply that block, `Initialize` returns, the
neuron then has exactly `nInputs + 1` weights, and `Process` on every input
of length `nInputs` returns: each `Weights[i]` and the bias
`Weights[len(Weights)-1]` is within bounds. -/
theorem Initialize_Process_in_bounds {F : Type} (rt : Runtime) (ops : Float64Ops F)
    (norm : Nat → F) (n : Neuron F) (nInputs : Int) (a : F → F)
    (h0 : 0 ≤ nInputs) (hmax : 8 * (nInputs + 1) ≤ (rt.maxAlloc : Int))
    (hptr : rt.maxAlloc < 2 ^ 64)
    (hmem : rt.canAlloc (8 * (nInputs + 1).toNat) = true) :
    ∃ m : Neuron F, Initialize rt ops norm n nInputs a = some m ∧
      (m.Weights.length : Int) = nInputs + 1 ∧
      m.nWeights = nInputs + 1 ∧
      ∀ input : List F, (input.length : Int) = nInputs →
        (Process ops m input).isSome = true := by
  have hw : wrap64 (nInputs + 1) = nInputs + 1 := by
    unfold wrap64
    omega
  have hmk : makeSlice rt ops (nInputs + 1)
      = some (List.replicate (nInputs + 1).toNat ops.zero) := by
    unfold makeSlice
    simp only [hmem, if_true]
    rw [if_neg (by omega)]
  have hlenW : (InitializeWeights ops norm
      { Weights := List.replicate (nInputs + 1).toNat ops.zero,
        nWeights := nInputs + 1, Activate := a }).Weights.length
      = (nInputs + 1).toNat := by
    rw [InitializeWeights_length]
    simp only [List.length_replicate]
  refine ⟨InitializeWeights ops norm
      { Weights := List.replicate (nInputs + 1).toNat ops.zero,
        nWeights := nInputs + 1, Activate := a }, ?_, ?_, rfl, ?_⟩
  · simp only [Initialize, hw, hmk]
  · rw [hlenW]
    omega
  · intro input hlen
    have hlenI : (nInputs + 1).toNat = input.length + 1 := by omega
    exact Process_isSome ops _ input (hlenW.trans hlenI)

/-- Witness of the amended C20 on linux/amd64: two inputs, three weights. -/
theorem Initialize_Process_in_bounds_witness :
    (0 : Int) ≤ 2 ∧ 8 * ((2 : Int) + 1) ≤ (linuxAmd64.maxAlloc : Int) ∧
    linuxAmd64.maxAlloc < 2 ^ 64 ∧
    linuxAmd64.canAlloc (8 * ((2 : Int) + 1).toNat) = true ∧
    ∃ m : Neuron Int,
      Initialize linuxAmd64 intOps (fun _ => 1) zeroNeuron 2 (fun x => x) = some m ∧
      (m.Weights.length : Int) = 2 + 1 ∧
      m.nWeights = 2 + 1 ∧
      ∀ input : List Int, (input.length : Int) = 2 →
        (Process intOps m input).isSome = true :=
  ⟨by decide, by decide, by decide, rfl,
   Initialize_Process_in_bounds linuxAmd64 intOps (fun _ => 1) zeroNeuron 2 (fun x => x)
     (by decide) (by decide) (by decide) rfl⟩

end go_nnet

end GoNnet
